import Mathlib

/-!
# redis-timer: a shallow embedding of `timer.c`

The module keeps one global dictionary `timers` from 10-byte identifiers to
heap-allocated `TimerData` records, and drives them through the host's timer
API.  The embedding makes the module's global state explicit (`State`), passes
the host's answers in explicitly (`Host`), and records every host call with a
side effect in `State.log`.

Bytes are natural numbers; a C string is the prefix of a byte sequence before
its first NUL.
-/

namespace RedisTimer

/-! ## Data model -/

/-- A byte sequence (the contents of a `RedisModuleString` or a `char` buffer). -/
abbrev Bytes := List Nat

/-- Source: `const int TimerIDLen = 10;` -/
def TimerIDLen : Nat := 10

/-- Address of a `TimerData` allocation. -/
abbrev Ptr := Nat

/-- Handle returned by the host timer API (`RedisModuleTimerID`). -/
abbrev RedisModuleTimerID := Nat

/-- Source: `struct TimerData`.  `id` stands for the array `char id[TimerIDLen]`,
`sha1` for the string the record owns. -/
structure TimerData where
  id : Bytes
  tid : RedisModuleTimerID
  sha1 : Bytes
  interval : Int
  deriving DecidableEq, Repr

/-- Host calls with a side effect, in the order the module made them. -/
inductive Event where
  /-- The call `RedisModule_Alloc(sizeof(TimerData))` returned this address. -/
  | alloc (p : Ptr)
  /-- The release in `DeleteTimerData`: `RedisModule_FreeString(td->sha1)` and `RedisModule_Free(td)`. -/
  | free (p : Ptr)
  /-- The call `RedisModule_CreateTimer(ctx, period, TimerCallback, data)` returned `tid`. -/
  | createTimer (period : Int) (data : Ptr) (tid : RedisModuleTimerID)
  /-- The call `RedisModule_StopTimer(ctx, tid, NULL)`; `ok` tells whether it returned `REDISMODULE_OK`. -/
  | stopTimer (tid : RedisModuleTimerID) (ok : Bool)
  /-- The call `RedisModule_Call(ctx, "EVALSHA", "sl", sha1, 0)`. -/
  | evalsha (sha1 : Bytes)
  deriving DecidableEq, Repr

/-- The error replies of the module, named after the message sent. -/
inductive ErrMsg where
  /-- Message "ERR invalid interval". -/
  | invalidInterval
  /-- Message "ERR invalid script". -/
  | invalidScript
  /-- Message "ERR invalid argument". -/
  | invalidArgument
  /-- Message "ERR cannot create timer". -/
  | cannotCreateTimer
  /-- Message "ERR invalid id". -/
  | invalidId
  /-- Message "ERR cannot stop timer". -/
  | cannotStopTimer
  deriving DecidableEq, Repr

/-- The four fields `ReplyWithTimerData` sends for one record. -/
structure TimerInfo where
  id : Bytes
  sha1 : Bytes
  rem : Int
  interval : Int
  deriving DecidableEq, Repr

/-- What a command sends back to its caller. -/
inductive Reply where
  /-- Reply of `RedisModule_WrongArity`. -/
  | wrongArity
  /-- Reply of `RedisModule_ReplyWithError`. -/
  | error (e : ErrMsg)
  /-- Reply of `RedisModule_ReplyWithSimpleString(ctx, "OK")`. -/
  | ok
  /-- Reply of `RedisModule_ReplyWithStringBuffer(ctx, td->id, TimerIDLen)`. -/
  | stringBuffer (b : Bytes)
  /-- The 4-element array of `ReplyWithTimerData`. -/
  | timerData (i : TimerInfo)
  /-- The postponed-length array of `TimerListCommand`: its length and its elements. -/
  | array (cnt : Nat) (items : List TimerInfo)
  deriving DecidableEq, Repr

/-- A reply of the host to `RedisModule_Call`. -/
inductive CallReply where
  | error
  | integer (v : Int)
  | string (b : Bytes)
  | null
  | array (elems : List CallReply)

/-- The global state of the module together with the part of the host it uses. -/
structure State where
  /-- The dictionary `timers`: key bytes to `TimerData*`. -/
  timers : List (Bytes × Ptr)
  /-- Live `TimerData` allocations. -/
  heap : List (Ptr × TimerData)
  /-- Next address `RedisModule_Alloc` hands out. -/
  nextPtr : Ptr
  /-- Alarms armed in the host: handle to (remaining milliseconds, callback data). -/
  armed : List (RedisModuleTimerID × (Nat × Ptr))
  /-- Next handle `RedisModule_CreateTimer` hands out. -/
  nextTid : RedisModuleTimerID
  /-- Host calls made so far. -/
  log : List Event
  deriving DecidableEq, Repr

/-- The state right after `RedisModule_OnLoad`: `timers = RedisModule_CreateDict(NULL)`. -/
def State.init : State :=
  { timers := [], heap := [], nextPtr := 0, armed := [], nextTid := 0, log := [] }

/-- The answers of the host during one command or one callback. -/
structure Host where
  /-- Result of `RedisModule_StringToLongLong`: `some v` when it returns `REDISMODULE_OK`. -/
  StringToLongLong : Bytes → Option Int
  /-- Reply to `RedisModule_Call(ctx, "SCRIPT", "cs", "EXISTS", sha1)`; `none` is `NULL`. -/
  scriptExists : Bytes → Option CallReply
  /-- Reply to `RedisModule_Call(ctx, "EVALSHA", "sl", sha1, 0)`; `none` is `NULL`. -/
  evalsha : Bytes → Option CallReply
  /-- The successive draws `RedisModule_GetRandomHexChars` is computed from. -/
  random : List Nat
  /-- Whether `RedisModule_CreateTimer` manages to arm the alarm. -/
  armOk : Bool
  /-- The bytes that follow the NUL terminator of an argument buffer. -/
  memory : Nat → Nat

/-! ## Association lists (the host dictionary, the heap, the alarm table) -/

/-- Value stored under `k`, if any. -/
def alGet {α β : Type} [DecidableEq α] : List (α × β) → α → Option β
  | [], _ => none
  | (a, b) :: rest, k => if a = k then some b else alGet rest k

/-- Remove every entry under `k`. -/
def alDel {α β : Type} [DecidableEq α] : List (α × β) → α → List (α × β)
  | [], _ => []
  | (a, b) :: rest, k => if a = k then alDel rest k else (a, b) :: alDel rest k

/-- Store `v` under `k`, replacing what was there. -/
def alSet {α β : Type} [DecidableEq α] (l : List (α × β)) (k : α) (v : β) : List (α × β) :=
  (k, v) :: alDel l k

/-- Host call `RedisModule_DictGetC(d, key, keylen, NULL)`, `key` being the `keylen` bytes read. -/
def DictGetC (d : List (Bytes × Ptr)) (key : Bytes) : Option Ptr := alGet d key

/-- Host call `RedisModule_DictDelC(d, key, keylen, NULL)`. -/
def DictDelC (d : List (Bytes × Ptr)) (key : Bytes) : List (Bytes × Ptr) := alDel d key

/-- Host call `RedisModule_DictSetC(d, key, keylen, ptr)`: inserts or overwrites. -/
def DictSetC (d : List (Bytes × Ptr)) (key : Bytes) (p : Ptr) : List (Bytes × Ptr) :=
  alSet d key p

/-! ## Host primitives -/

/-- Host call `RedisModule_Alloc`: a new `TimerData` at a fresh address. -/
def Alloc (s : State) (td : TimerData) : State × Ptr :=
  ({ s with heap := alSet s.heap s.nextPtr td, nextPtr := s.nextPtr + 1,
            log := s.log ++ [Event.alloc s.nextPtr] }, s.nextPtr)

/-- Host call `RedisModule_CreateTimer(ctx, period, TimerCallback, data)`.  The host hands
out a new handle; the alarm is armed when `ok`. -/
def CreateTimer (ok : Bool) (s : State) (period : Int) (data : Ptr) :
    State × RedisModuleTimerID :=
  ({ s with armed := if ok then alSet s.armed s.nextTid (period.toNat, data) else s.armed,
            nextTid := s.nextTid + 1,
            log := s.log ++ [Event.createTimer period data s.nextTid] }, s.nextTid)

/-- Host call `RedisModule_GetTimerInfo(ctx, tid, &rem, NULL)`: `some rem` when it returns
`REDISMODULE_OK`, which is when `tid` is armed. -/
def GetTimerInfo (s : State) (tid : RedisModuleTimerID) : Option Nat :=
  (alGet s.armed tid).map Prod.fst

/-- Host call `RedisModule_StopTimer(ctx, tid, NULL)`: succeeds exactly on an armed handle. -/
def StopTimer (s : State) (tid : RedisModuleTimerID) : State × Bool :=
  match alGet s.armed tid with
  | none => ({ s with log := s.log ++ [Event.stopTimer tid false] }, false)
  | some _ => ({ s with armed := alDel s.armed tid,
                        log := s.log ++ [Event.stopTimer tid true] }, true)

/-- The character set of `RedisModule_GetRandomHexChars`, "0123456789abcdef". -/
def hexChar (d : Nat) : Nat := if d < 10 then 48 + d else 87 + d

/-- Host call `RedisModule_GetRandomHexChars(td->id, TimerIDLen)`: ten characters of the
hexadecimal character set, here the ten low hexadecimal digits of the draw `r`. -/
def GetRandomHexChars (r : Nat) : Bytes :=
  (List.range TimerIDLen).map (fun k => hexChar (r / 16 ^ k % 16))

/-- Host call `RedisModule_StringPtrLen(arg, NULL)` followed by a read of `TimerIDLen` bytes
at the returned pointer: the argument's bytes, its NUL terminator, then whatever
follows the buffer. -/
def readId (h : Host) (arg : Bytes) : Bytes :=
  (arg ++ 0 :: (List.range TimerIDLen).map h.memory).take TimerIDLen

/-- The C string at the start of a buffer. -/
def cstr (b : Bytes) : Bytes := b.takeWhile (fun c => c != 0)

/-- The function `tolower` on ASCII. -/
def tolower (c : Nat) : Nat := if 65 ≤ c ∧ c ≤ 90 then c + 32 else c

/-- Whether `strcasecmp(a, b)` returns 0. -/
def strcasecmpEq (a b : Bytes) : Bool := (cstr a).map tolower == (cstr b).map tolower

/-- The literal "LOOP". -/
def LOOP : Bytes := [76, 79, 79, 80]

/-- Test `RedisModule_CallReplyType(rep) == REDISMODULE_REPLY_ERROR`. -/
def CallReplyIsError : CallReply → Bool
  | CallReply.error => true
  | _ => false

/-- Host call `RedisModule_CallReplyArrayElement(rep, 0)`: `NULL` unless `rep` is an array
with a first element. -/
def CallReplyArrayElement0 : CallReply → Option CallReply
  | CallReply.array (e :: _) => some e
  | _ => none

/-- Host call `RedisModule_CallReplyInteger`: `LLONG_MIN` on a reply that is not an integer. -/
def CallReplyInteger : CallReply → Int
  | CallReply.integer v => v
  | _ => -(2 ^ 63)

/-! ## The module (`timer.c`) -/

/-- Source: `DeleteTimerData`.  Releases the record at `td`: its string and the
structure itself. -/
def DeleteTimerData (s : State) (td : Ptr) : State :=
  { s with heap := alDel s.heap td, log := s.log ++ [Event.free td] }

/-- Source: `ScriptExists`.  True when the reply to SCRIPT EXISTS is there and no
error, its first element is there and no error, and the integer of that element
is not 0. -/
def ScriptExists (h : Host) (sha1 : Bytes) : Bool :=
  match h.scriptExists sha1 with
  | none => false
  | some rep =>
    if CallReplyIsError rep then false
    else
      match CallReplyArrayElement0 rep with
      | none => false
      | some irep =>
        if CallReplyIsError irep then false
        else CallReplyInteger irep != 0

/-- First statement of `TimerCallback`:
`RedisModule_DictDelC(timers, td->id, TimerIDLen, NULL)`. -/
def TimerCallback_remove (s : State) (td : TimerData) : State :=
  { s with timers := DictDelC s.timers td.id }

/-- Source: `TimerCallback`, the callback the host runs with the record `data`
when its alarm expires.  `none` stands for a `data` that is not a live record. -/
def TimerCallback (h : Host) (s : State) (data : Ptr) : Option State :=
  match alGet s.heap data with
  | none => none
  | some td =>
    let s1 := TimerCallback_remove s td
    if ScriptExists h td.sha1 = false then
      some (DeleteTimerData s1 data)
    else
      -- rep = RedisModule_Call(ctx, "EVALSHA", ...); RedisModule_FreeCallReply(rep)
      let _rep := h.evalsha td.sha1
      let s2 := { s1 with log := s1.log ++ [Event.evalsha td.sha1] }
      if td.interval ≠ 0 then
        let (s3, tid) := CreateTimer h.armOk s2 td.interval data
        let s4 := { s3 with heap := alSet s3.heap data { td with tid := tid } }
        some { s4 with timers := DictSetC s4.timers td.id data }
      else
        some (DeleteTimerData s2 data)

/-- The cast `(long long)rem` of a `uint64_t`: the value is kept below 2^63 and
wraps to a negative number from 2^63 on. -/
def castLongLong (r : Nat) : Int :=
  if r % 2 ^ 64 < 2 ^ 63 then ((r % 2 ^ 64 : Nat) : Int)
  else ((r % 2 ^ 64 : Nat) : Int) - 2 ^ 64

/-- Source: `ReplyWithTimerData`.  The `uint64_t rem` stays 0 when the host does
not know the handle, and is replied as `(long long)rem`. -/
def ReplyWithTimerData (s : State) (td : TimerData) : TimerInfo :=
  { id := td.id, sha1 := td.sha1, rem := castLongLong ((GetTimerInfo s td.tid).getD 0),
    interval := td.interval }

/-- The `while (1)` loop of `TimerNewCommand`: draw identifiers until one is not a
key of `timers`.  `none` when the draws run out before that. -/
def generateId (timers : List (Bytes × Ptr)) : List Nat → Option Bytes
  | [] => none
  | r :: rest =>
    if DictGetC timers (GetRandomHexChars r) = none then some (GetRandomHexChars r)
    else generateId timers rest

/-- Source: `TimerNewCommand` (TIMER.NEW milliseconds sha1 [LOOP]); `argv[0]` is
the command name.  `none` stands for an identifier loop that does not end within
the draws of `h.random`. -/
def TimerNewCommand (h : Host) (s : State) (argv : List Bytes) : Option (State × Reply) :=
  let argc := argv.length
  if argc < 3 ∨ argc > 4 then some (s, Reply.wrongArity)
  else
    match h.StringToLongLong (argv.getD 1 []) with
    | none => some (s, Reply.error ErrMsg.invalidInterval)
    | some interval =>
      let sha1 := argv.getD 2 []
      if ScriptExists h sha1 = false then some (s, Reply.error ErrMsg.invalidScript)
      else if argc = 4 ∧ strcasecmpEq (argv.getD 3 []) LOOP = false then
        some (s, Reply.error ErrMsg.invalidArgument)
      else
        let loop : Bool := decide (argc = 4)
        match generateId s.timers h.random with
        | none => none
        | some id =>
          let rec0 : TimerData :=
            { id := id, tid := 0, sha1 := sha1, interval := if loop then interval else 0 }
          let (s1, td) := Alloc s rec0
          let (s2, tid) := CreateTimer h.armOk s1 interval td
          let s3 := { s2 with heap := alSet s2.heap td { rec0 with tid := tid } }
          if GetTimerInfo s3 tid = none then
            some (DeleteTimerData s3 td, Reply.error ErrMsg.cannotCreateTimer)
          else
            some ({ s3 with timers := DictSetC s3.timers id td }, Reply.stringBuffer id)

/-- Source: `TimerKillCommand` (TIMER.KILL id).  `none` stands for a dictionary
entry that does not point to a live record. -/
def TimerKillCommand (h : Host) (s : State) (argv : List Bytes) : Option (State × Reply) :=
  if argv.length ≠ 2 then some (s, Reply.wrongArity)
  else
    let id := readId h (argv.getD 1 [])
    match DictGetC s.timers id with
    | none => some (s, Reply.error ErrMsg.invalidId)
    | some p =>
      match alGet s.heap p with
      | none => none
      | some td =>
        let (s1, stopped) := StopTimer s td.tid
        if stopped = false then some (s1, Reply.error ErrMsg.cannotStopTimer)
        else
          let s2 := { s1 with timers := DictDelC s1.timers id }
          some (DeleteTimerData s2 p, Reply.ok)

/-- Source: `TimerInfoCommand` (TIMER.INFO id).  `none` stands for a dictionary
entry that does not point to a live record. -/
def TimerInfoCommand (h : Host) (s : State) (argv : List Bytes) : Option (State × Reply) :=
  if argv.length ≠ 2 then some (s, Reply.wrongArity)
  else
    let id := readId h (argv.getD 1 [])
    match DictGetC s.timers id with
    | none => some (s, Reply.error ErrMsg.invalidId)
    | some p =>
      match alGet s.heap p with
      | none => none
      | some td => some (s, Reply.timerData (ReplyWithTimerData s td))

/-- The iteration of `TimerListCommand` over the dictionary, one
`ReplyWithTimerData` per entry. -/
def listEntries (s : State) : List (Bytes × Ptr) → Option (List TimerInfo)
  | [] => some []
  | (_, p) :: rest =>
    match alGet s.heap p, listEntries s rest with
    | some td, some items => some (ReplyWithTimerData s td :: items)
    | _, _ => none

/-- Lexicographic order on keys, byte by byte, a proper prefix coming first. -/
def keyLe : Bytes → Bytes → Bool
  | [], _ => true
  | _ :: _, [] => false
  | a :: as, b :: bs => if a < b then true else if b < a then false else keyLe as bs

/-- Host calls `RedisModule_DictIteratorStartC(d, "^", NULL, 0)` and then
`RedisModule_DictNext` until it returns `NULL`: the entries of the dictionary
from the first key on, in the lexicographic order of their keys. -/
def DictIterate (d : List (Bytes × Ptr)) : List (Bytes × Ptr) :=
  d.insertionSort (fun a b => keyLe a.1 b.1 = true)

/-- Source: `TimerListCommand` (TIMER.LIST).  The entries come in the key order of
the dictionary iterator; `none` stands for an entry that does not point to a live
record. -/
def TimerListCommand (_h : Host) (s : State) (argv : List Bytes) : Option (State × Reply) :=
  if argv.length ≠ 1 then some (s, Reply.wrongArity)
  else
    match listEntries s (DictIterate s.timers) with
    | none => none
    | some items => some (s, Reply.array items.length items)

/-- The record `TimerNewCommand` builds for the identifier `id` and the parsed
delay `interval`. -/
def newRecord (s : State) (argv : List Bytes) (id : Bytes) (interval : Int) : TimerData :=
  { id := id, tid := s.nextTid, sha1 := argv.getD 2 [],
    interval := if argv.length = 4 then interval else 0 }

/-- The state of `TimerNewCommand` once the record is allocated and filled and
the alarm has been asked for, before the check of the handle. -/
def armedState (h : Host) (s : State) (argv : List Bytes) (id : Bytes) (interval : Int) :
    State :=
  { timers := s.timers
    heap := alSet (alSet s.heap s.nextPtr { newRecord s argv id interval with tid := 0 })
              s.nextPtr (newRecord s argv id interval)
    nextPtr := s.nextPtr + 1
    armed := if h.armOk then alSet s.armed s.nextTid (interval.toNat, s.nextPtr) else s.armed
    nextTid := s.nextTid + 1
    log := s.log ++ [Event.alloc s.nextPtr, Event.createTimer interval s.nextPtr s.nextTid] }

/-- The state `TimerCallback` leaves when it re-arms the record `td` at `data`:
script run, new alarm asked for, handle stored, record put back. -/
def rearmedState (h : Host) (s : State) (data : Ptr) (td : TimerData) : State :=
  { timers := DictSetC (DictDelC s.timers td.id) td.id data
    heap := alSet s.heap data { td with tid := s.nextTid }
    nextPtr := s.nextPtr
    armed := if h.armOk then alSet s.armed s.nextTid (td.interval.toNat, data) else s.armed
    nextTid := s.nextTid + 1
    log := s.log ++ [Event.evalsha td.sha1, Event.createTimer td.interval data s.nextTid] }

/-! ## Runs of the module inside the host -/

/-- The host lets the alarm `tid` expire: the handle leaves the alarm table and
`TimerCallback` runs with the data it was armed with.  `none` when `tid` is not
armed. -/
def fireTimer (h : Host) (s : State) (tid : RedisModuleTimerID) : Option State :=
  match alGet s.armed tid with
  | none => none
  | some (_, data) => TimerCallback h { s with armed := alDel s.armed tid } data

/-- One thing that can happen to the module. -/
inductive Step where
  | new (argv : List Bytes)
  | kill (argv : List Bytes)
  | info (argv : List Bytes)
  | list (argv : List Bytes)
  | fire (tid : RedisModuleTimerID)

/-- Run one step with the host answers `h`. -/
def step (h : Host) (s : State) : Step → Option State
  | Step.new argv => (TimerNewCommand h s argv).map Prod.fst
  | Step.kill argv => (TimerKillCommand h s argv).map Prod.fst
  | Step.info argv => (TimerInfoCommand h s argv).map Prod.fst
  | Step.list argv => (TimerListCommand h s argv).map Prod.fst
  | Step.fire tid => fireTimer h s tid

/-- Run a sequence of steps, each with its own host answers. -/
def run (s : State) : List (Host × Step) → Option State
  | [] => some s
  | (h, st) :: rest =>
    match step h s st with
    | none => none
    | some s1 => run s1 rest

/-- Successive invocations of `TimerCallback` on the same record, one per host. -/
def fires (s : State) (data : Ptr) : List Host → Option State
  | [] => some s
  | h :: rest =>
    match TimerCallback h s data with
    | none => none
    | some s1 => fires s1 data rest

/-- Number of times the script `sha1` has been run. -/
def executions (s : State) (sha1 : Bytes) : Nat := s.log.count (Event.evalsha sha1)

/-! ## A concrete host -/

/-- Value of a sequence of ASCII decimal digits, `none` on any other byte. -/
def digitsValue : Bytes → Nat → Option Nat
  | [], acc => some acc
  | c :: rest, acc => if 48 ≤ c ∧ c ≤ 57 then digitsValue rest (acc * 10 + (c - 48)) else none

/-- Decimal representation of a `long long` as the host parses it: an optional
minus sign, digits without a leading zero, a value in the 64-bit range. -/
def parseLongLong (b : Bytes) : Option Int :=
  match b with
  | [] => none
  | [48] => some 0
  | 45 :: c :: rest =>
    if 49 ≤ c ∧ c ≤ 57 then
      match digitsValue (c :: rest) 0 with
      | some v => if v ≤ 2 ^ 63 then some (-(v : Int)) else none
      | none => none
    else none
  | c :: rest =>
    if 49 ≤ c ∧ c ≤ 57 then
      match digitsValue (c :: rest) 0 with
      | some v => if v < 2 ^ 63 then some (v : Int) else none
      | none => none
    else none

/-- A host in which every script exists, every alarm can be armed, and the
random draws are `draws`. -/
def hostOk (draws : List Nat) : Host :=
  { StringToLongLong := parseLongLong
    scriptExists := fun _ => some (CallReply.array [CallReply.integer 1])
    evalsha := fun _ => some CallReply.null
    random := draws
    armOk := true
    memory := fun _ => 0 }

/-- A host in which the script is gone: SCRIPT EXISTS answers 0. -/
def hostNoScript : Host :=
  { hostOk [] with scriptExists := fun _ => some (CallReply.array [CallReply.integer 0]) }

/-- A host in which the script exists and the alarm cannot be armed. -/
def hostNoArm (draws : List Nat) : Host :=
  { hostOk draws with armOk := false }

/-- The bytes of "timer.new". -/
def cmdNew : Bytes := [116, 105, 109, 101, 114, 46, 110, 101, 119]

/-- The bytes of "timer.kill". -/
def cmdKill : Bytes := [116, 105, 109, 101, 114, 46, 107, 105, 108, 108]

/-- The bytes of "timer.info". -/
def cmdInfo : Bytes := [116, 105, 109, 101, 114, 46, 105, 110, 102, 111]

/-- A 4-byte stand-in for the 40-character SHA1 of a script. -/
def shaA : Bytes := [97, 98, 99, 100]

/-- The bytes of "100". -/
def arg100 : Bytes := [49, 48, 48]

/-- The bytes of "0". -/
def arg0 : Bytes := [48]

/-- The identifier `GetRandomHexChars 7`, "7000000000". -/
def id7 : Bytes := [55, 48, 48, 48, 48, 48, 48, 48, 48, 48]

/-- The state after `TIMER.NEW 100 abcd LOOP` on the freshly loaded module, the
draw being 7. -/
def stateOne : State :=
  { timers := [(id7, 0)]
    heap := [(0, { id := id7, tid := 0, sha1 := shaA, interval := 100 })]
    nextPtr := 1
    armed := [(0, (100, 0))]
    nextTid := 1
    log := [Event.alloc 0, Event.createTimer 100 0 0] }

/-- The state after `TIMER.NEW 100 abcd` (no LOOP) on the freshly loaded module, the
draw being 7. -/
def stateOnce : State :=
  { timers := [(id7, 0)]
    heap := [(0, { id := id7, tid := 0, sha1 := shaA, interval := 0 })]
    nextPtr := 1
    armed := [(0, (100, 0))]
    nextTid := 1
    log := [Event.alloc 0, Event.createTimer 100 0 0] }

/-- The state `stateOnce` after its record has been released without a run of the
script. -/
def stateReaped : State :=
  { timers := []
    heap := []
    nextPtr := 1
    armed := [(0, (100, 0))]
    nextTid := 1
    log := [Event.alloc 0, Event.createTimer 100 0 0, Event.free 0] }

/-- The state after `TIMER.NEW 0 abcd LOOP` on the freshly loaded module, the draw
being 7. -/
def stateZeroLoop : State :=
  { timers := [(id7, 0)]
    heap := [(0, { id := id7, tid := 0, sha1 := shaA, interval := 0 })]
    nextPtr := 1
    armed := [(0, (0, 0))]
    nextTid := 1
    log := [Event.alloc 0, Event.createTimer 0 0 0] }

/-- The state `stateZeroLoop` after one run of the script and the release of the
record. -/
def stateZeroDone : State :=
  { timers := []
    heap := []
    nextPtr := 1
    armed := [(0, (0, 0))]
    nextTid := 1
    log := [Event.alloc 0, Event.createTimer 0 0 0, Event.evalsha shaA, Event.free 0] }

/-- The state of `stateOne` after its alarm has expired while the host could not
arm a new one: the record is back in the dictionary with the handle 1, which the
host does not know. -/
def stateStuck : State :=
  { timers := [(id7, 0)]
    heap := [(0, { id := id7, tid := 1, sha1 := shaA, interval := 100 })]
    nextPtr := 1
    armed := []
    nextTid := 2
    log := [Event.alloc 0, Event.createTimer 100 0 0, Event.evalsha shaA,
            Event.createTimer 100 0 1] }

/-- The state after a TIMER.NEW on the freshly loaded module whose alarm could not
be armed. -/
def stateBackedOut : State :=
  { timers := []
    heap := []
    nextPtr := 1
    armed := []
    nextTid := 1
    log := [Event.alloc 0, Event.createTimer 100 0 0, Event.free 0] }

/-- The state `stateOne` after a successful TIMER.KILL of its timer. -/
def stateKilled : State :=
  { timers := []
    heap := []
    nextPtr := 1
    armed := []
    nextTid := 1
    log := [Event.alloc 0, Event.createTimer 100 0 0, Event.stopTimer 0 true, Event.free 0] }

/-- The bytes of "7000000000ab": the live identifier of `stateOne` followed by two
more characters. -/
def id7ab : Bytes := id7 ++ [97, 98]

/-- The bytes of "x", which is no number. -/
def argX : Bytes := [120]

/-! ## Predicates used by the statements -/

/-- No two live records carry the same identifier. -/
def NoSharedIds (s : State) : Prop :=
  ∀ p q td1 td2, alGet s.heap p = some td1 → alGet s.heap q = some td2 →
    td1.id = td2.id → p = q

/-- States reached from the state after load by TIMER.NEW calls alone. -/
inductive CreateReachable : State → Prop where
  | init : CreateReachable State.init
  | new (h : Host) (s : State) (argv : List Bytes) (s1 : State) (rep : Reply) :
      CreateReachable s → TimerNewCommand h s argv = some (s1, rep) → CreateReachable s1

/-- Every live record sits below the allocation mark and is stored in the
dictionary under its own identifier. -/
def Registered (s : State) : Prop :=
  ∀ p td, alGet s.heap p = some td → p < s.nextPtr ∧ DictGetC s.timers td.id = some p

/-- Every record in the dictionary holds a handle the host has armed. -/
def ArmedInvariant (s : State) : Prop :=
  ∀ k p, DictGetC s.timers k = some p →
    ∃ td, alGet s.heap p = some td ∧ GetTimerInfo s td.tid ≠ none

/-- The bytes of "-5". -/
def argMinus5 : Bytes := [45, 53]

/-- Consistency of the dictionary, the live records, the alarm table and the log of
host calls. -/
structure WellFormed (s : State) : Prop where
  /-- No key occurs twice in the dictionary. -/
  keys_nodup : (s.timers.map Prod.fst).Nodup
  /-- Every entry of the dictionary points to a live record that carries the key. -/
  stored_live : ∀ k p, (k, p) ∈ s.timers → ∃ td, alGet s.heap p = some td ∧ td.id = k
  /-- Every live record was handed out by the allocator and is stored under its
  identifier. -/
  live_stored : ∀ p td, alGet s.heap p = some td →
    p < s.nextPtr ∧ DictGetC s.timers td.id = some p
  /-- Every armed alarm has a live record as data, and that record holds its handle. -/
  armed_live : ∀ tid x, alGet s.armed tid = some x →
    ∃ td, alGet s.heap x.2 = some td ∧ td.tid = tid
  /-- A released address is no live record. -/
  freed_dead : ∀ p, Event.free p ∈ s.log → alGet s.heap p = none ∧ p < s.nextPtr
  /-- Every address in an allocation event was handed out by the allocator. -/
  alloc_below : ∀ p, Event.alloc p ∈ s.log → p < s.nextPtr
  /-- Every address handed out that is no live record has exactly one release. -/
  released_once : ∀ p, p < s.nextPtr → alGet s.heap p = none →
    s.log.count (Event.free p) = 1
/-- The state `TimerKillCommand` leaves when it has stopped the alarm of the record
`td` at `p`, stored under `id`. -/
def killedState (s : State) (id : Bytes) (p : Ptr) (td : TimerData) : State :=
  { timers := DictDelC s.timers id
    heap := alDel s.heap p
    nextPtr := s.nextPtr
    armed := alDel s.armed td.tid
    nextTid := s.nextTid
    log := s.log ++ [Event.stopTimer td.tid true, Event.free p] }

/-- The bytes of "timer.list". -/
def cmdList : Bytes := [116, 105, 109, 101, 114, 46, 108, 105, 115, 116]

/-- The fields of a timer as TIMER.NEW fixes them: the replied identifier, the
script argument, and as interval the parsed delay under LOOP and 0 otherwise. -/
def createdInfo (h : Host) (argv : List Bytes) (id : Bytes) : Bytes × Bytes × Int :=
  (id, argv.getD 2 [],
    if argv.length = 4 then (h.StringToLongLong (argv.getD 1 [])).getD 0 else 0)

/-- The identifier, script and interval of a listed entry. -/
def infoFields (i : TimerInfo) : Bytes × Bytes × Int := (i.id, i.sha1, i.interval)

/-- Run TIMER.NEW calls that all succeed, collecting the fields of the timers they
create, newest first.  `none` when a call does not succeed. -/
def runCreates (s : State) : List (Host × List Bytes) → Option (State × List (Bytes × Bytes × Int))
  | [] => some (s, [])
  | (h, argv) :: rest =>
    match TimerNewCommand h s argv with
    | some (s1, Reply.stringBuffer id) =>
      match runCreates s1 rest with
      | some (t, infos) => some (t, infos ++ [createdInfo h argv id])
      | none => none
    | _ => none

/-- The state after `TIMER.NEW -5 abcd LOOP` on the freshly loaded module, the draw
being 7. -/
def stateNegLoop : State :=
  { timers := [(id7, 0)]
    heap := [(0, { id := id7, tid := 0, sha1 := shaA, interval := -5 })]
    nextPtr := 1
    armed := [(0, (0, 0))]
    nextTid := 1
    log := [Event.alloc 0, Event.createTimer (-5) 0 0] }

/-- The state `stateNegLoop` after `TimerCallback` has run on its record with the
script there. -/
def stateNegRearmed : State :=
  { timers := [(id7, 0)]
    heap := [(0, { id := id7, tid := 1, sha1 := shaA, interval := -5 })]
    nextPtr := 1
    armed := [(1, (0, 0)), (0, (0, 0))]
    nextTid := 2
    log := [Event.alloc 0, Event.createTimer (-5) 0 0, Event.evalsha shaA,
            Event.createTimer (-5) 0 1] }

/-- Every TIMER.NEW of the sequence whose delay the host parses has a delay that is
not negative. -/
def NonNegDelays (steps : List (Host × Step)) : Prop :=
  ∀ h argv v, (h, Step.new argv) ∈ steps →
    h.StringToLongLong (argv.getD 1 []) = some v → 0 ≤ v

/-- The tuple `ReplyWithTimerData` builds for a dictionary entry; `none` when the
entry does not point to a live record. -/
def entryInfo (s : State) (e : Bytes × Ptr) : Option TimerInfo :=
  (alGet s.heap e.2).map (ReplyWithTimerData s)

/-- The identifier `GetRandomHexChars 8`, "8000000000". -/
def id8 : Bytes := [56, 48, 48, 48, 48, 48, 48, 48, 48, 48]

/-- The state after `TIMER.NEW 100 abcd LOOP` (draw 7) and then `TIMER.NEW 100 abcd`
(draw 8) on the freshly loaded module. -/
def stateTwo : State :=
  { timers := [(id8, 1), (id7, 0)]
    heap := [(1, { id := id8, tid := 1, sha1 := shaA, interval := 0 }),
             (0, { id := id7, tid := 0, sha1 := shaA, interval := 100 })]
    nextPtr := 2
    armed := [(1, (100, 1)), (0, (100, 0))]
    nextTid := 2
    log := [Event.alloc 0, Event.createTimer 100 0 0, Event.alloc 1,
            Event.createTimer 100 1 1] }

/-! ## Lemmas on association lists and host primitives -/

theorem alGet_alDel_self {α β : Type} [DecidableEq α] (l : List (α × β)) (k : α) :
    alGet (alDel l k) k = none := by
  induction l with
  | nil => rfl
  | cons e rest ih =>
    obtain ⟨a, b⟩ := e
    by_cases hak : a = k
    · simp [alDel, hak, ih]
    · simp [alDel, alGet, hak, ih]

theorem alGet_alDel_ne {α β : Type} [DecidableEq α] (l : List (α × β)) (k k1 : α)
    (hne : k1 ≠ k) : alGet (alDel l k) k1 = alGet l k1 := by
  induction l with
  | nil => rfl
  | cons e rest ih =>
    obtain ⟨a, b⟩ := e
    by_cases hak : a = k
    · subst hak
      have : ¬ a = k1 := fun h => hne h.symm
      simp [alDel, alGet, ih, this]
    · by_cases hak1 : a = k1
      · subst hak1
        simp [alDel, alGet, hak]
      · simp [alDel, alGet, hak, hak1, ih]

theorem alGet_alSet_self {α β : Type} [DecidableEq α] (l : List (α × β)) (k : α) (v : β) :
    alGet (alSet l k v) k = some v := by
  simp [alSet, alGet]

theorem alGet_alSet_ne {α β : Type} [DecidableEq α] (l : List (α × β)) (k k1 : α) (v : β)
    (hne : k1 ≠ k) : alGet (alSet l k v) k1 = alGet l k1 := by
  have : ¬ k = k1 := fun h => hne h.symm
  simp [alSet, alGet, this, alGet_alDel_ne l k k1 hne]

theorem GetRandomHexChars_length (r : Nat) : (GetRandomHexChars r).length = TimerIDLen := by
  simp [GetRandomHexChars]

theorem readId_of_length (h : Host) (arg : Bytes) (hlen : arg.length = TimerIDLen) :
    readId h arg = arg := by
  unfold readId
  rw [List.take_append_of_le_length (le_of_eq hlen.symm), ← hlen, List.take_length]

theorem generateId_fresh (timers : List (Bytes × Ptr)) (draws : List Nat) (id : Bytes)
    (hgen : generateId timers draws = some id) :
    DictGetC timers id = none ∧ id.length = TimerIDLen := by
  induction draws with
  | nil => simp [generateId] at hgen
  | cons r rest ih =>
    unfold generateId at hgen
    split at hgen
    · rename_i hnone
      injection hgen with hid
      subst hid
      exact ⟨hnone, GetRandomHexChars_length r⟩
    · exact ih hgen

theorem generateId_terminates (timers : List (Bytes × Ptr)) (draws : List Nat)
    (hdraw : ∃ r ∈ draws, DictGetC timers (GetRandomHexChars r) = none) :
    ∃ id, generateId timers draws = some id := by
  induction draws with
  | nil => simp at hdraw
  | cons r rest ih =>
    unfold generateId
    split
    · exact ⟨_, rfl⟩
    · rename_i hsome
      obtain ⟨r1, hmem, habs⟩ := hdraw
      rcases List.mem_cons.mp hmem with heq | hin
      · subst heq
        exact absurd habs hsome
      · exact ih ⟨r1, hin, habs⟩

/-! ## `TimerNewCommand` -/

theorem TimerNewCommand_eq (h : Host) (s : State) (argv : List Bytes) :
    TimerNewCommand h s argv =
      if argv.length < 3 ∨ argv.length > 4 then some (s, Reply.wrongArity)
      else
        match h.StringToLongLong (argv.getD 1 []) with
        | none => some (s, Reply.error ErrMsg.invalidInterval)
        | some interval =>
          if ScriptExists h (argv.getD 2 []) = false then
            some (s, Reply.error ErrMsg.invalidScript)
          else if argv.length = 4 ∧ strcasecmpEq (argv.getD 3 []) LOOP = false then
            some (s, Reply.error ErrMsg.invalidArgument)
          else
            match generateId s.timers h.random with
            | none => none
            | some id =>
              if GetTimerInfo (armedState h s argv id interval) s.nextTid = none then
                some (DeleteTimerData (armedState h s argv id interval) s.nextPtr,
                      Reply.error ErrMsg.cannotCreateTimer)
              else
                some ({ armedState h s argv id interval with
                          timers := DictSetC s.timers id s.nextPtr },
                      Reply.stringBuffer id) := by
  unfold TimerNewCommand
  by_cases harity : argv.length < 3 ∨ argv.length > 4
  · simp only [if_pos harity]
  · simp only [if_neg harity]
    cases hparse : h.StringToLongLong (argv.getD 1 []) with
    | none => rfl
    | some interval =>
      by_cases hscript : ScriptExists h (argv.getD 2 []) = false
      · simp only [if_pos hscript]
      · simp only [if_neg hscript]
        by_cases hloop : argv.length = 4 ∧ strcasecmpEq (argv.getD 3 []) LOOP = false
        · simp only [if_pos hloop]
        · simp only [if_neg hloop]
          cases hgen : generateId s.timers h.random with
          | none => rfl
          | some id =>
            by_cases h4 : argv.length = 4
            · simp [h4, Alloc, CreateTimer, armedState, newRecord]
            · simp [h4, Alloc, CreateTimer, armedState, newRecord]

/-- What a successful TIMER.NEW did: the identifier came out of the draw loop and
the new state is the armed state with the record stored under that identifier. -/
theorem TimerNewCommand_success (h : Host) (s s1 : State) (argv : List Bytes) (id : Bytes)
    (hres : TimerNewCommand h s argv = some (s1, Reply.stringBuffer id)) :
    generateId s.timers h.random = some id ∧
    (argv.length = 3 ∨ argv.length = 4) ∧
    ScriptExists h (argv.getD 2 []) = true ∧
    ∃ interval, h.StringToLongLong (argv.getD 1 []) = some interval ∧
      GetTimerInfo (armedState h s argv id interval) s.nextTid ≠ none ∧
      s1 = { armedState h s argv id interval with timers := DictSetC s.timers id s.nextPtr } := by
  rw [TimerNewCommand_eq] at hres
  split at hres
  · simp at hres
  · rename_i harity
    split at hres
    · simp at hres
    · rename_i interval hparse
      split at hres
      · simp at hres
      · rename_i hscript
        split at hres
        · simp at hres
        · split at hres
          · simp at hres
          · rename_i id1 hgen
            split at hres
            · simp at hres
            · rename_i hinfo
              simp only [Option.some.injEq, Prod.mk.injEq, Reply.stringBuffer.injEq] at hres
              obtain ⟨hs, hid⟩ := hres
              subst hid
              exact ⟨hgen, by omega, by simpa using hscript, interval, hparse, hinfo, hs.symm⟩

/-- What a failed TIMER.NEW did: either nothing at all, or it built the record,
could not arm the alarm and released the record. -/
theorem TimerNewCommand_failure (h : Host) (s s1 : State) (argv : List Bytes) (rep : Reply)
    (hres : TimerNewCommand h s argv = some (s1, rep))
    (hrep : ∀ id, rep ≠ Reply.stringBuffer id) :
    s1 = s ∨
    (rep = Reply.error ErrMsg.cannotCreateTimer ∧
      ∃ id interval, s1 = DeleteTimerData (armedState h s argv id interval) s.nextPtr) := by
  rw [TimerNewCommand_eq] at hres
  split at hres
  · left; simp at hres; exact hres.1.symm
  · split at hres
    · left; simp at hres; exact hres.1.symm
    · rename_i interval hparse
      split at hres
      · left; simp at hres; exact hres.1.symm
      · split at hres
        · left; simp at hres; exact hres.1.symm
        · split at hres
          · simp at hres
          · rename_i id1 hgen
            split at hres
            · right
              simp only [Option.some.injEq, Prod.mk.injEq] at hres
              exact ⟨hres.2.symm, id1, interval, hres.1.symm⟩
            · simp only [Option.some.injEq, Prod.mk.injEq] at hres
              exact absurd hres.2.symm (hrep id1)

/-- TIMER.NEW returns whenever the draws contain an identifier that is not in use. -/
theorem TimerNewCommand_returns (h : Host) (s : State) (argv : List Bytes)
    (hdraw : ∃ r ∈ h.random, DictGetC s.timers (GetRandomHexChars r) = none) :
    ∃ s1 rep, TimerNewCommand h s argv = some (s1, rep) := by
  obtain ⟨id, hgen⟩ := generateId_terminates s.timers h.random hdraw
  rw [TimerNewCommand_eq]
  split
  · exact ⟨_, _, rfl⟩
  · split
    · exact ⟨_, _, rfl⟩
    · split
      · exact ⟨_, _, rfl⟩
      · split
        · exact ⟨_, _, rfl⟩
        · rw [hgen]
          simp only
          split
          · exact ⟨_, _, rfl⟩
          · exact ⟨_, _, rfl⟩

theorem Registered_init : Registered State.init := by
  intro p td hget
  simp [State.init, alGet] at hget

theorem Registered_new (h : Host) (s s1 : State) (argv : List Bytes) (rep : Reply)
    (hreg : Registered s) (hres : TimerNewCommand h s argv = some (s1, rep)) :
    Registered s1 := by
  by_cases hok : ∃ id, rep = Reply.stringBuffer id
  · obtain ⟨id, hid⟩ := hok
    subst hid
    obtain ⟨hgen, -, -, interval, -, -, hs1⟩ := TimerNewCommand_success h s s1 argv id hres
    obtain ⟨hfresh, -⟩ := generateId_fresh s.timers h.random id hgen
    subst hs1
    intro p td hget
    simp only [armedState] at hget ⊢
    by_cases hp : p = s.nextPtr
    · subst hp
      rw [alGet_alSet_self] at hget
      injection hget with htd
      subst htd
      exact ⟨Nat.lt_succ_self _, by simp [newRecord, DictGetC, DictSetC, alGet_alSet_self]⟩
    · rw [alGet_alSet_ne _ _ _ _ hp, alGet_alSet_ne _ _ _ _ hp] at hget
      obtain ⟨hlt, hstored⟩ := hreg p td hget
      refine ⟨Nat.lt_succ_of_lt hlt, ?_⟩
      have hne : td.id ≠ id := by
        intro heq
        rw [heq, hfresh] at hstored
        exact Option.noConfusion hstored
      simpa [DictGetC, DictSetC, alGet_alSet_ne _ _ _ _ hne] using hstored
  · have hrep : ∀ id, rep ≠ Reply.stringBuffer id := fun id hid => hok ⟨id, hid⟩
    rcases TimerNewCommand_failure h s s1 argv rep hres hrep with hs | ⟨-, id, interval, hs⟩
    · rw [hs]; exact hreg
    · subst hs
      intro p td hget
      simp only [DeleteTimerData, armedState] at hget ⊢
      by_cases hp : p = s.nextPtr
      · subst hp
        rw [alGet_alDel_self] at hget
        exact Option.noConfusion hget
      · rw [alGet_alDel_ne _ _ _ hp, alGet_alSet_ne _ _ _ _ hp, alGet_alSet_ne _ _ _ _ hp] at hget
        obtain ⟨hlt, hstored⟩ := hreg p td hget
        exact ⟨Nat.lt_succ_of_lt hlt, hstored⟩

theorem Registered_of_CreateReachable (t : State) (hreach : CreateReachable t) :
    Registered t := by
  induction hreach with
  | init => exact Registered_init
  | new h s argv s1 rep _ hres ih => exact Registered_new h s s1 argv rep ih hres

theorem NoSharedIds_of_Registered (s : State) (hreg : Registered s) : NoSharedIds s := by
  intro p q td1 td2 hp hq hid
  have h1 := (hreg p td1 hp).2
  have h2 := (hreg q td2 hq).2
  rw [hid, h2] at h1
  injection h1 with h1
  exact h1.symm

theorem stateOne_reached :
    TimerNewCommand (hostOk [7]) State.init [cmdNew, arg100, shaA, LOOP] =
      some (stateOne, Reply.stringBuffer id7) := by
  rfl

/-! ## `TimerKillCommand` and `TimerInfoCommand` on an absent key -/

theorem TimerKillCommand_absent (h : Host) (s : State) (cmd id : Bytes)
    (hlen : id.length = TimerIDLen) (habs : DictGetC s.timers id = none) :
    TimerKillCommand h s [cmd, id] = some (s, Reply.error ErrMsg.invalidId) := by
  simp [TimerKillCommand, readId_of_length h id hlen, habs]

theorem TimerInfoCommand_absent (h : Host) (s : State) (cmd id : Bytes)
    (hlen : id.length = TimerIDLen) (habs : DictGetC s.timers id = none) :
    TimerInfoCommand h s [cmd, id] = some (s, Reply.error ErrMsg.invalidId) := by
  simp [TimerInfoCommand, readId_of_length h id hlen, habs]

/-! ## `TimerCallback` -/

theorem TimerCallback_stale_eq (h : Host) (s : State) (p : Ptr) (td : TimerData)
    (hlive : alGet s.heap p = some td) (hgone : ScriptExists h td.sha1 = false) :
    TimerCallback h s p = some (DeleteTimerData (TimerCallback_remove s td) p) := by
  simp [TimerCallback, hlive, hgone]

theorem TimerCallback_once_eq (h : Host) (s : State) (p : Ptr) (td : TimerData)
    (hlive : alGet s.heap p = some td) (hthere : ScriptExists h td.sha1 = true)
    (hzero : td.interval = 0) :
    TimerCallback h s p =
      some (DeleteTimerData
        { TimerCallback_remove s td with log := s.log ++ [Event.evalsha td.sha1] } p) := by
  simp [TimerCallback, hlive, hthere, hzero, TimerCallback_remove]

theorem TimerCallback_rearm_eq (h : Host) (s : State) (p : Ptr) (td : TimerData)
    (hlive : alGet s.heap p = some td) (hthere : ScriptExists h td.sha1 = true)
    (hloop : td.interval ≠ 0) :
    TimerCallback h s p = some (rearmedState h s p td) := by
  simp [TimerCallback, hlive, hthere, hloop, TimerCallback_remove, CreateTimer, rearmedState]

theorem TimerCallback_interval_zero (h : Host) (s : State) (p : Ptr) (td : TimerData)
    (hlive : alGet s.heap p = some td) (hzero : td.interval = 0) :
    ∃ s1, TimerCallback h s p = some s1 ∧
      DictGetC s1.timers td.id = none ∧
      s1.armed = s.armed ∧ s1.nextTid = s.nextTid ∧
      alGet s1.heap p = none ∧
      s1.log = s.log ++ (if ScriptExists h td.sha1 then [Event.evalsha td.sha1] else []) ++
        [Event.free p] := by
  cases hscript : ScriptExists h td.sha1 with
  | false =>
    refine ⟨_, TimerCallback_stale_eq h s p td hlive hscript, ?_, rfl, rfl, ?_, ?_⟩
    · simp [DeleteTimerData, TimerCallback_remove, DictGetC, DictDelC, alGet_alDel_self]
    · simp [DeleteTimerData, TimerCallback_remove, alGet_alDel_self]
    · simp [DeleteTimerData, TimerCallback_remove]
  | true =>
    refine ⟨_, TimerCallback_once_eq h s p td hlive hscript hzero, ?_, rfl, rfl, ?_, ?_⟩
    · simp [DeleteTimerData, TimerCallback_remove, DictGetC, DictDelC, alGet_alDel_self]
    · simp [DeleteTimerData, TimerCallback_remove, alGet_alDel_self]
    · simp [DeleteTimerData, TimerCallback_remove]

/-! ## More lemmas on association lists -/

theorem alDel_of_absent {α β : Type} [DecidableEq α] (l : List (α × β)) (k : α)
    (habs : alGet l k = none) : alDel l k = l := by
  induction l with
  | nil => rfl
  | cons e rest ih =>
    obtain ⟨a, b⟩ := e
    by_cases hak : a = k
    · simp [alGet, hak] at habs
    · simp only [alGet, if_neg hak] at habs
      simp [alDel, hak, ih habs]

/-! ## Association lists: membership and keys -/

theorem mem_alDel {α β : Type} [DecidableEq α] (l : List (α × β)) (k : α) (e : α × β) :
    e ∈ alDel l k ↔ e ∈ l ∧ e.1 ≠ k := by
  induction l with
  | nil => simp [alDel]
  | cons x rest ih =>
    obtain ⟨a, b⟩ := x
    by_cases hak : a = k
    · subst hak
      simp only [alDel, if_true, ih, List.mem_cons]
      constructor
      · rintro ⟨hin, hne⟩
        exact ⟨Or.inr hin, hne⟩
      · rintro ⟨hin | hin, hne⟩
        · subst hin
          exact absurd rfl hne
        · exact ⟨hin, hne⟩
    · simp only [alDel, if_neg hak, List.mem_cons, ih]
      constructor
      · rintro (hin | ⟨hin, hne⟩)
        · subst hin
          exact ⟨Or.inl rfl, hak⟩
        · exact ⟨Or.inr hin, hne⟩
      · rintro ⟨hin | hin, hne⟩
        · exact Or.inl hin
        · exact Or.inr ⟨hin, hne⟩

theorem alGet_mem {α β : Type} [DecidableEq α] (l : List (α × β)) (k : α) (v : β)
    (hget : alGet l k = some v) : (k, v) ∈ l := by
  induction l with
  | nil => simp [alGet] at hget
  | cons x rest ih =>
    obtain ⟨a, b⟩ := x
    by_cases hak : a = k
    · subst hak
      simp only [alGet, if_true, Option.some.injEq] at hget
      subst hget
      exact List.mem_cons_self _ _
    · simp only [alGet, if_neg hak] at hget
      exact List.mem_cons_of_mem _ (ih hget)

theorem keys_alDel_sublist {α β : Type} [DecidableEq α] (l : List (α × β)) (k : α) :
    List.Sublist ((alDel l k).map Prod.fst) (l.map Prod.fst) := by
  induction l with
  | nil => simp [alDel]
  | cons x rest ih =>
    obtain ⟨a, b⟩ := x
    by_cases hak : a = k
    · simp only [alDel, if_pos hak, List.map_cons]
      exact List.Sublist.cons _ ih
    · simp only [alDel, if_neg hak, List.map_cons]
      exact List.Sublist.cons₂ _ ih

theorem key_not_mem_alDel {α β : Type} [DecidableEq α] (l : List (α × β)) (k : α) :
    k ∉ (alDel l k).map Prod.fst := by
  intro hmem
  obtain ⟨e, he, hk⟩ := List.mem_map.mp hmem
  exact ((mem_alDel l k e).mp he).2 hk

theorem keys_nodup_alDel {α β : Type} [DecidableEq α] (l : List (α × β)) (k : α)
    (hnd : (l.map Prod.fst).Nodup) : ((alDel l k).map Prod.fst).Nodup :=
  List.Nodup.sublist (keys_alDel_sublist l k) hnd

theorem keys_nodup_alSet {α β : Type} [DecidableEq α] (l : List (α × β)) (k : α) (v : β)
    (hnd : (l.map Prod.fst).Nodup) : ((alSet l k v).map Prod.fst).Nodup := by
  simp only [alSet, List.map_cons]
  exact List.nodup_cons.mpr ⟨key_not_mem_alDel l k, keys_nodup_alDel l k hnd⟩

theorem alGet_alDel_some {α β : Type} [DecidableEq α] (l : List (α × β)) (k q : α) (v : β)
    (hget : alGet (alDel l k) q = some v) : q ≠ k ∧ alGet l q = some v := by
  by_cases hq : q = k
  · subst hq
    rw [alGet_alDel_self] at hget
    exact Option.noConfusion hget
  · rw [alGet_alDel_ne _ _ _ hq] at hget
    exact ⟨hq, hget⟩

/-! ## The possible outcomes of each step -/

theorem TimerNewCommand_cases (h : Host) (s s1 : State) (argv : List Bytes) (rep : Reply)
    (hres : TimerNewCommand h s argv = some (s1, rep)) :
    s1 = s ∨
    (∃ id interval, generateId s.timers h.random = some id ∧
      h.StringToLongLong (argv.getD 1 []) = some interval ∧
      GetTimerInfo (armedState h s argv id interval) s.nextTid = none ∧
      s1 = DeleteTimerData (armedState h s argv id interval) s.nextPtr) ∨
    (∃ id interval, generateId s.timers h.random = some id ∧
      h.StringToLongLong (argv.getD 1 []) = some interval ∧
      rep = Reply.stringBuffer id ∧
      s1 = { armedState h s argv id interval with timers := DictSetC s.timers id s.nextPtr }) := by
  rw [TimerNewCommand_eq] at hres
  split at hres
  · left; simp at hres; exact hres.1.symm
  · split at hres
    · left; simp at hres; exact hres.1.symm
    · rename_i interval hparse
      split at hres
      · left; simp at hres; exact hres.1.symm
      · split at hres
        · left; simp at hres; exact hres.1.symm
        · split at hres
          · simp at hres
          · rename_i id1 hgen
            split at hres
            · rename_i hinfo
              right; left
              simp only [Option.some.injEq, Prod.mk.injEq] at hres
              exact ⟨id1, interval, hgen, hparse, hinfo, hres.1.symm⟩
            · right; right
              simp only [Option.some.injEq, Prod.mk.injEq] at hres
              exact ⟨id1, interval, hgen, hparse, hres.2.symm, hres.1.symm⟩

theorem TimerKillCommand_cases (h : Host) (s s1 : State) (argv : List Bytes) (rep : Reply)
    (hres : TimerKillCommand h s argv = some (s1, rep)) :
    s1 = s ∨
    (∃ tid, s1 = { s with log := s.log ++ [Event.stopTimer tid false] }) ∨
    (∃ id p td x, DictGetC s.timers id = some p ∧ alGet s.heap p = some td ∧
      alGet s.armed td.tid = some x ∧ s1 = killedState s id p td) := by
  unfold TimerKillCommand at hres
  split at hres
  · left; simp at hres; exact hres.1.symm
  · simp only at hres
    generalize readId h (argv.getD 1 []) = id at hres
    split at hres
    · left; simp at hres; exact hres.1.symm
    · rename_i p hp
      split at hres
      · simp at hres
      · rename_i td htd
        cases harmed : alGet s.armed td.tid with
        | none =>
          right; left
          simp [StopTimer, harmed] at hres
          exact ⟨td.tid, hres.1.symm⟩
        | some x =>
          right; right
          simp [StopTimer, harmed, DeleteTimerData] at hres
          exact ⟨id, p, td, x, hp, htd, harmed, hres.1.symm⟩

theorem TimerInfoCommand_state (h : Host) (s s1 : State) (argv : List Bytes) (rep : Reply)
    (hres : TimerInfoCommand h s argv = some (s1, rep)) : s1 = s := by
  unfold TimerInfoCommand at hres
  split at hres
  · simp at hres; exact hres.1.symm
  · simp only at hres
    split at hres
    · simp at hres; exact hres.1.symm
    · split at hres
      · simp at hres
      · simp at hres; exact hres.1.symm

theorem TimerListCommand_state (h : Host) (s s1 : State) (argv : List Bytes) (rep : Reply)
    (hres : TimerListCommand h s argv = some (s1, rep)) : s1 = s := by
  unfold TimerListCommand at hres
  split at hres
  · simp at hres; exact hres.1.symm
  · split at hres
    · simp at hres
    · simp at hres; exact hres.1.symm

theorem TimerCallback_cases (h : Host) (s s1 : State) (p : Ptr)
    (hres : TimerCallback h s p = some s1) :
    ∃ td, alGet s.heap p = some td ∧
      ((ScriptExists h td.sha1 = false ∧
          s1 = DeleteTimerData (TimerCallback_remove s td) p) ∨
       (ScriptExists h td.sha1 = true ∧ td.interval = 0 ∧
          s1 = DeleteTimerData
            { TimerCallback_remove s td with log := s.log ++ [Event.evalsha td.sha1] } p) ∨
       (ScriptExists h td.sha1 = true ∧ td.interval ≠ 0 ∧ s1 = rearmedState h s p td)) := by
  cases hlive : alGet s.heap p with
  | none => simp [TimerCallback, hlive] at hres
  | some td =>
    refine ⟨td, rfl, ?_⟩
    cases hscript : ScriptExists h td.sha1 with
    | false =>
      rw [TimerCallback_stale_eq h s p td hlive hscript] at hres
      injection hres with hres
      exact Or.inl ⟨rfl, hres.symm⟩
    | true =>
      by_cases hzero : td.interval = 0
      · rw [TimerCallback_once_eq h s p td hlive hscript hzero] at hres
        injection hres with hres
        exact Or.inr (Or.inl ⟨rfl, hzero, hres.symm⟩)
      · rw [TimerCallback_rearm_eq h s p td hlive hscript hzero] at hres
        injection hres with hres
        exact Or.inr (Or.inr ⟨rfl, hzero, hres.symm⟩)

/-! ## The invariant `WellFormed` is kept by every step -/

theorem WellFormed_init : WellFormed State.init where
  keys_nodup := by simp [State.init]
  stored_live := by intro k p hmem; simp [State.init] at hmem
  live_stored := by intro p td hget; simp [State.init, alGet] at hget
  armed_live := by intro tid x hget; simp [State.init, alGet] at hget
  freed_dead := by intro p hmem; simp [State.init] at hmem
  alloc_below := by intro p hmem; simp [State.init] at hmem
  released_once := by intro p hlt; simp [State.init] at hlt

theorem WellFormed_log (s : State) (hwf : WellFormed s) (evs : List Event)
    (hfree : ∀ q, Event.free q ∉ evs) (halloc : ∀ q, Event.alloc q ∉ evs) :
    WellFormed { s with log := s.log ++ evs } where
  keys_nodup := hwf.keys_nodup
  stored_live := hwf.stored_live
  live_stored := hwf.live_stored
  armed_live := hwf.armed_live
  freed_dead := by
    intro p hmem
    rcases List.mem_append.mp hmem with hin | hin
    · exact hwf.freed_dead p hin
    · exact absurd hin (hfree p)
  alloc_below := by
    intro p hmem
    rcases List.mem_append.mp hmem with hin | hin
    · exact hwf.alloc_below p hin
    · exact absurd hin (halloc p)
  released_once := by
    intro p hlt hnone
    show (s.log ++ evs).count (Event.free p) = 1
    rw [List.count_append, hwf.released_once p hlt hnone,
      List.count_eq_zero_of_not_mem (hfree p)]

theorem WellFormed_disarm (s : State) (hwf : WellFormed s) (tid : RedisModuleTimerID) :
    WellFormed { s with armed := alDel s.armed tid } where
  keys_nodup := hwf.keys_nodup
  stored_live := hwf.stored_live
  live_stored := hwf.live_stored
  armed_live := by
    intro t x hget
    exact hwf.armed_live t x (alGet_alDel_some _ _ _ _ hget).2
  freed_dead := hwf.freed_dead
  alloc_below := hwf.alloc_below
  released_once := hwf.released_once

theorem WellFormed_release (s : State) (hwf : WellFormed s) (p : Ptr) (td : TimerData)
    (hlive : alGet s.heap p = some td) (hfired : alGet s.armed td.tid = none) :
    WellFormed { s with timers := DictDelC s.timers td.id, heap := alDel s.heap p,
                        log := s.log ++ [Event.free p] } where
  keys_nodup := keys_nodup_alDel _ _ hwf.keys_nodup
  stored_live := by
    intro k q hmem
    obtain ⟨hin, hk⟩ := (mem_alDel _ _ _).mp hmem
    obtain ⟨tdq, hq, hid⟩ := hwf.stored_live k q hin
    have hqp : q ≠ p := by
      intro heq
      subst heq
      rw [hlive] at hq
      injection hq with hq
      subst hq
      exact hk hid.symm
    exact ⟨tdq, by simpa [alGet_alDel_ne _ _ _ hqp] using hq, hid⟩
  live_stored := by
    intro q tdq hget
    obtain ⟨hqp, hq⟩ := alGet_alDel_some _ _ _ _ hget
    obtain ⟨hlt, hst⟩ := hwf.live_stored q tdq hq
    refine ⟨hlt, ?_⟩
    have hne : tdq.id ≠ td.id := by
      intro heq
      have hp := (hwf.live_stored p td hlive).2
      rw [heq, hp] at hst
      injection hst with hst
      exact hqp hst.symm
    show alGet (alDel s.timers td.id) tdq.id = some q
    rw [alGet_alDel_ne _ _ _ hne]
    exact hst
  armed_live := by
    intro t x hget
    obtain ⟨tdx, hx, htid⟩ := hwf.armed_live t x hget
    have hxp : x.2 ≠ p := by
      intro heq
      rw [heq, hlive] at hx
      injection hx with hx
      subst hx
      rw [htid, hget] at hfired
      exact Option.noConfusion hfired
    exact ⟨tdx, by simpa [alGet_alDel_ne _ _ _ hxp] using hx, htid⟩
  freed_dead := by
    intro q hmem
    rcases List.mem_append.mp hmem with hin | hin
    · obtain ⟨hnone, hlt⟩ := hwf.freed_dead q hin
      refine ⟨?_, hlt⟩
      by_cases hqp : q = p
      · subst hqp; exact alGet_alDel_self _ _
      · show alGet (alDel s.heap p) q = none
        rw [alGet_alDel_ne _ _ _ hqp]; exact hnone
    · simp only [List.mem_singleton, Event.free.injEq] at hin
      subst hin
      exact ⟨alGet_alDel_self _ _, (hwf.live_stored q td hlive).1⟩
  alloc_below := by
    intro q hmem
    rcases List.mem_append.mp hmem with hin | hin
    · exact hwf.alloc_below q hin
    · simp at hin
  released_once := by
    intro q hlt hnone
    show (s.log ++ [Event.free p]).count (Event.free q) = 1
    rw [List.count_append]
    by_cases hqp : q = p
    · subst hqp
      have hnot : Event.free q ∉ s.log := by
        intro hin
        have := (hwf.freed_dead q hin).1
        rw [hlive] at this
        exact Option.noConfusion this
      rw [List.count_eq_zero_of_not_mem hnot]
      simp
    · have hq : alGet s.heap q = none := by
        have : alGet (alDel s.heap p) q = none := hnone
        rwa [alGet_alDel_ne _ _ _ hqp] at this
      rw [hwf.released_once q hlt hq]
      have : ¬ (p = q) := fun h => hqp h.symm
      simp [List.count_cons, this]

theorem WellFormed_rearm (h : Host) (s : State) (hwf : WellFormed s) (p : Ptr)
    (td : TimerData) (hlive : alGet s.heap p = some td)
    (hfired : alGet s.armed td.tid = none) : WellFormed (rearmedState h s p td) where
  keys_nodup := keys_nodup_alSet _ _ _ (keys_nodup_alDel _ _ hwf.keys_nodup)
  stored_live := by
    intro k q hmem
    simp only [rearmedState, DictSetC, DictDelC, alSet, List.mem_cons] at hmem
    rcases hmem with heq | hin
    · injection heq with hk hq
      subst hk hq
      exact ⟨_, alGet_alSet_self _ _ _, rfl⟩
    · obtain ⟨hin1, hk⟩ := (mem_alDel _ _ _).mp hin
      obtain ⟨hin2, -⟩ := (mem_alDel _ _ _).mp hin1
      obtain ⟨tdq, hq, hid⟩ := hwf.stored_live k q hin2
      have hqp : q ≠ p := by
        intro heq
        subst heq
        rw [hlive] at hq
        injection hq with hq
        subst hq
        exact hk hid.symm
      exact ⟨tdq, by simpa [rearmedState, alGet_alSet_ne _ _ _ _ hqp] using hq, hid⟩
  live_stored := by
    intro q tdq hget
    by_cases hqp : q = p
    · subst hqp
      simp only [rearmedState, alGet_alSet_self, Option.some.injEq] at hget
      subst hget
      exact ⟨(hwf.live_stored q td hlive).1, alGet_alSet_self _ _ _⟩
    · simp only [rearmedState, alGet_alSet_ne _ _ _ _ hqp] at hget
      obtain ⟨hlt, hst⟩ := hwf.live_stored q tdq hget
      refine ⟨hlt, ?_⟩
      have hne : tdq.id ≠ td.id := by
        intro heq
        have hp := (hwf.live_stored p td hlive).2
        rw [heq, hp] at hst
        injection hst with hst
        exact hqp hst.symm
      show alGet (alSet (alDel s.timers td.id) td.id p) tdq.id = some q
      rw [alGet_alSet_ne _ _ _ _ hne, alGet_alDel_ne _ _ _ hne]
      exact hst
  armed_live := by
    intro t x hget
    have hold : alGet s.armed t = some x →
        ∃ tdx, alGet (rearmedState h s p td).heap x.2 = some tdx ∧ tdx.tid = t := by
      intro hget1
      obtain ⟨tdx, hx, htid⟩ := hwf.armed_live t x hget1
      have hxp : x.2 ≠ p := by
        intro heq
        rw [heq, hlive] at hx
        injection hx with hx
        subst hx
        rw [htid, hget1] at hfired
        exact Option.noConfusion hfired
      exact ⟨tdx, by simpa [rearmedState, alGet_alSet_ne _ _ _ _ hxp] using hx, htid⟩
    cases hok : h.armOk with
    | false =>
      simp only [rearmedState, hok] at hget
      exact hold hget
    | true =>
      simp only [rearmedState, hok, if_true] at hget
      by_cases ht : t = s.nextTid
      · subst ht
        rw [alGet_alSet_self] at hget
        injection hget with hget
        subst hget
        exact ⟨_, alGet_alSet_self _ _ _, rfl⟩
      · rw [alGet_alSet_ne _ _ _ _ ht] at hget
        exact hold hget
  freed_dead := by
    intro q hmem
    have hin : Event.free q ∈ s.log := by
      simpa [rearmedState] using hmem
    obtain ⟨hnone, hlt⟩ := hwf.freed_dead q hin
    refine ⟨?_, hlt⟩
    have hqp : q ≠ p := by
      intro heq
      rw [heq, hlive] at hnone
      exact Option.noConfusion hnone
    simpa [rearmedState, alGet_alSet_ne _ _ _ _ hqp] using hnone
  alloc_below := by
    intro q hmem
    have hin : Event.alloc q ∈ s.log := by
      simpa [rearmedState] using hmem
    exact hwf.alloc_below q hin
  released_once := by
    intro q hlt hnone
    have hqp : q ≠ p := by
      intro heq
      subst heq
      simp [rearmedState, alGet_alSet_self] at hnone
    have hq : alGet s.heap q = none := by
      simpa [rearmedState, alGet_alSet_ne _ _ _ _ hqp] using hnone
    have := hwf.released_once q hlt hq
    simpa [rearmedState, List.count_append, List.count_cons] using this

theorem WellFormed_new (h : Host) (s s1 : State) (argv : List Bytes) (rep : Reply)
    (hwf : WellFormed s) (hres : TimerNewCommand h s argv = some (s1, rep)) :
    WellFormed s1 := by
  have hfresh : alGet s.heap s.nextPtr = none := by
    cases hget : alGet s.heap s.nextPtr with
    | none => rfl
    | some td => exact absurd (hwf.live_stored _ td hget).1 (Nat.lt_irrefl _)
  have hnotfreed : Event.free s.nextPtr ∉ s.log := fun hin =>
    absurd (hwf.freed_dead _ hin).2 (Nat.lt_irrefl _)
  rcases TimerNewCommand_cases h s s1 argv rep hres with
    hs | ⟨id, interval, -, -, hinfo, hs⟩ | ⟨id, interval, hgen, -, -, hs⟩
  · rw [hs]; exact hwf
  · subst hs
    have hok : h.armOk = false := by
      cases hok : h.armOk with
      | false => rfl
      | true => simp [GetTimerInfo, armedState, hok, alGet_alSet_self] at hinfo
    have hheap : ∀ q, q ≠ s.nextPtr →
        alGet (DeleteTimerData (armedState h s argv id interval) s.nextPtr).heap q =
          alGet s.heap q := by
      intro q hq
      simp only [DeleteTimerData, armedState]
      rw [alGet_alDel_ne _ _ _ hq, alGet_alSet_ne _ _ _ _ hq, alGet_alSet_ne _ _ _ _ hq]
    have hheap0 : alGet (DeleteTimerData (armedState h s argv id interval) s.nextPtr).heap
        s.nextPtr = none := by
      simp [DeleteTimerData, alGet_alDel_self]
    have hlive : ∀ q tdq, alGet s.heap q = some tdq →
        alGet (DeleteTimerData (armedState h s argv id interval) s.nextPtr).heap q =
          some tdq := by
      intro q tdq hq
      have hne : q ≠ s.nextPtr := ne_of_lt (hwf.live_stored q tdq hq).1
      rw [hheap q hne]; exact hq
    exact
      { keys_nodup := hwf.keys_nodup
        stored_live := by
          intro k q hmem
          obtain ⟨tdq, hq, hid⟩ := hwf.stored_live k q hmem
          exact ⟨tdq, hlive q tdq hq, hid⟩
        live_stored := by
          intro q tdq hget
          by_cases hq : q = s.nextPtr
          · rw [hq, hheap0] at hget
            exact Option.noConfusion hget
          · rw [hheap q hq] at hget
            obtain ⟨hlt, hst⟩ := hwf.live_stored q tdq hget
            exact ⟨Nat.lt_succ_of_lt hlt, hst⟩
        armed_live := by
          intro t x hget
          have hget1 : alGet s.armed t = some x := by
            simpa [DeleteTimerData, armedState, hok] using hget
          obtain ⟨tdx, hx, htid⟩ := hwf.armed_live t x hget1
          exact ⟨tdx, hlive _ tdx hx, htid⟩
        freed_dead := by
          intro q hmem
          simp only [DeleteTimerData, armedState, List.mem_append, List.mem_cons,
            List.mem_singleton, Event.free.injEq, reduceCtorEq, false_or,
            List.not_mem_nil, or_false] at hmem
          rcases hmem with hin | hq
          · obtain ⟨hnone, hlt⟩ := hwf.freed_dead q hin
            refine ⟨?_, Nat.lt_succ_of_lt hlt⟩
            rw [hheap q (ne_of_lt hlt)]; exact hnone
          · subst hq
            exact ⟨hheap0, Nat.lt_succ_self _⟩
        alloc_below := by
          intro q hmem
          simp only [DeleteTimerData, armedState, List.mem_append, List.mem_cons,
            List.mem_singleton, Event.alloc.injEq, reduceCtorEq, false_or,
            List.not_mem_nil, or_false] at hmem
          rcases hmem with hin | hq
          · exact Nat.lt_succ_of_lt (hwf.alloc_below q hin)
          · subst hq
            exact Nat.lt_succ_self _
        released_once := by
          intro q hlt hnone
          by_cases hq : q = s.nextPtr
          · subst hq
            simp [DeleteTimerData, armedState, List.count_append, List.count_cons,
              List.count_eq_zero_of_not_mem hnotfreed]
          · rw [hheap q hq] at hnone
            have hlt1 : q < s.nextPtr := Nat.lt_of_le_of_ne (Nat.le_of_lt_succ hlt) hq
            have hne : ¬ (s.nextPtr = q) := fun h => hq h.symm
            have := hwf.released_once q hlt1 hnone
            simpa [DeleteTimerData, armedState, List.count_append, List.count_cons, hne]
              using this }
  · subst hs
    obtain ⟨habs, -⟩ := generateId_fresh s.timers h.random id hgen
    have hheap : ∀ q, q ≠ s.nextPtr →
        alGet (armedState h s argv id interval).heap q = alGet s.heap q := by
      intro q hq
      simp only [armedState]
      rw [alGet_alSet_ne _ _ _ _ hq, alGet_alSet_ne _ _ _ _ hq]
    have hheap0 : alGet (armedState h s argv id interval).heap s.nextPtr =
        some (newRecord s argv id interval) := by
      simp [armedState, alGet_alSet_self]
    have hlive : ∀ q tdq, alGet s.heap q = some tdq →
        alGet (armedState h s argv id interval).heap q = some tdq := by
      intro q tdq hq
      have hne : q ≠ s.nextPtr := ne_of_lt (hwf.live_stored q tdq hq).1
      rw [hheap q hne]; exact hq
    exact
      { keys_nodup := keys_nodup_alSet _ _ _ hwf.keys_nodup
        stored_live := by
          intro k q hmem
          simp only [DictSetC, alSet, List.mem_cons] at hmem
          rcases hmem with heq | hin
          · injection heq with hk hq
            subst hk hq
            exact ⟨_, hheap0, rfl⟩
          · obtain ⟨hin1, -⟩ := (mem_alDel _ _ _).mp hin
            obtain ⟨tdq, hq, hid⟩ := hwf.stored_live k q hin1
            exact ⟨tdq, hlive q tdq hq, hid⟩
        live_stored := by
          intro q tdq hget
          by_cases hq : q = s.nextPtr
          · subst hq
            have hget1 : alGet (armedState h s argv id interval).heap s.nextPtr =
                some tdq := hget
            rw [hheap0] at hget1
            injection hget1 with hget1
            subst hget1
            exact ⟨Nat.lt_succ_self _, alGet_alSet_self _ _ _⟩
          · have hget1 : alGet (armedState h s argv id interval).heap q = some tdq := hget
            rw [hheap q hq] at hget1
            obtain ⟨hlt, hst⟩ := hwf.live_stored q tdq hget1
            refine ⟨Nat.lt_succ_of_lt hlt, ?_⟩
            have hne : tdq.id ≠ id := by
              intro heq
              rw [heq, habs] at hst
              exact Option.noConfusion hst
            show alGet (alSet s.timers id s.nextPtr) tdq.id = some q
            rw [alGet_alSet_ne _ _ _ _ hne]
            exact hst
        armed_live := by
          intro t x hget
          have hold : alGet s.armed t = some x →
              ∃ tdx, alGet (armedState h s argv id interval).heap x.2 = some tdx ∧
                tdx.tid = t := by
            intro hget1
            obtain ⟨tdx, hx, htid⟩ := hwf.armed_live t x hget1
            exact ⟨tdx, hlive _ tdx hx, htid⟩
          cases hok : h.armOk with
          | false =>
            exact hold (by simpa [armedState, hok] using hget)
          | true =>
            have hget1 : alGet (alSet s.armed s.nextTid (interval.toNat, s.nextPtr)) t =
                some x := by
              simpa [armedState, hok] using hget
            by_cases ht : t = s.nextTid
            · subst ht
              rw [alGet_alSet_self] at hget1
              injection hget1 with hget1
              subst hget1
              exact ⟨_, hheap0, rfl⟩
            · rw [alGet_alSet_ne _ _ _ _ ht] at hget1
              exact hold hget1
        freed_dead := by
          intro q hmem
          have hin : Event.free q ∈ s.log := by
            simpa [armedState] using hmem
          obtain ⟨hnone, hlt⟩ := hwf.freed_dead q hin
          refine ⟨?_, Nat.lt_succ_of_lt hlt⟩
          show alGet (armedState h s argv id interval).heap q = none
          rw [hheap q (ne_of_lt hlt)]; exact hnone
        alloc_below := by
          intro q hmem
          simp only [armedState, List.mem_append, List.mem_cons,
            List.mem_singleton, Event.alloc.injEq, reduceCtorEq,
            List.not_mem_nil, or_false] at hmem
          rcases hmem with hin | hq
          · exact Nat.lt_succ_of_lt (hwf.alloc_below q hin)
          · subst hq
            exact Nat.lt_succ_self _
        released_once := by
          intro q hlt hnone
          have hnone1 : alGet (armedState h s argv id interval).heap q = none := hnone
          have hq : q ≠ s.nextPtr := by
            intro heq
            rw [heq, hheap0] at hnone1
            exact Option.noConfusion hnone1
          rw [hheap q hq] at hnone1
          have hlt1 : q < s.nextPtr := Nat.lt_of_le_of_ne (Nat.le_of_lt_succ hlt) hq
          have := hwf.released_once q hlt1 hnone1
          simpa [armedState, List.count_append, List.count_cons] using this }

theorem WellFormed_kill (h : Host) (s s1 : State) (argv : List Bytes) (rep : Reply)
    (hwf : WellFormed s) (hres : TimerKillCommand h s argv = some (s1, rep)) :
    WellFormed s1 := by
  rcases TimerKillCommand_cases h s s1 argv rep hres with
    hs | ⟨tid, hs⟩ | ⟨id, p, td, x, hstored, hlive, -, hs⟩
  · rw [hs]; exact hwf
  · rw [hs]
    exact WellFormed_log s hwf [Event.stopTimer tid false] (by simp) (by simp)
  · obtain ⟨td1, hlive1, hid⟩ := hwf.stored_live id p (alGet_mem _ _ _ hstored)
    rw [hlive] at hlive1
    injection hlive1 with hlive1
    subst hlive1
    subst hid
    have h1 := WellFormed_disarm s hwf td.tid
    have h2 := WellFormed_log _ h1 [Event.stopTimer td.tid true] (by simp) (by simp)
    have h3 := WellFormed_release _ h2 p td hlive (alGet_alDel_self _ _)
    rw [hs]
    simpa [killedState] using h3

theorem WellFormed_callback (h : Host) (s s1 : State) (p : Ptr) (td : TimerData)
    (hwf : WellFormed s) (hlive : alGet s.heap p = some td)
    (hfired : alGet s.armed td.tid = none) (hres : TimerCallback h s p = some s1) :
    WellFormed s1 := by
  obtain ⟨td1, hlive1, hcases⟩ := TimerCallback_cases h s s1 p hres
  rw [hlive] at hlive1
  injection hlive1 with hlive1
  subst hlive1
  rcases hcases with ⟨-, hs⟩ | ⟨-, -, hs⟩ | ⟨-, -, hs⟩
  · rw [hs]
    exact WellFormed_release s hwf p td hlive hfired
  · have h1 := WellFormed_log s hwf [Event.evalsha td.sha1] (by simp) (by simp)
    have h2 := WellFormed_release _ h1 p td hlive hfired
    rw [hs]
    exact h2
  · rw [hs]
    exact WellFormed_rearm h s hwf p td hlive hfired

theorem WellFormed_fire (h : Host) (s s1 : State) (tid : RedisModuleTimerID)
    (hwf : WellFormed s) (hres : fireTimer h s tid = some s1) : WellFormed s1 := by
  unfold fireTimer at hres
  split at hres
  · exact Option.noConfusion hres
  · rename_i rem data harmed
    obtain ⟨td, hlive, htid⟩ := hwf.armed_live tid (rem, data) harmed
    have h1 := WellFormed_disarm s hwf tid
    exact WellFormed_callback h _ s1 data td h1 hlive
      (by rw [htid]; exact alGet_alDel_self _ _) hres

theorem WellFormed_step (h : Host) (s s1 : State) (st : Step) (hwf : WellFormed s)
    (hres : step h s st = some s1) : WellFormed s1 := by
  cases st with
  | new argv =>
    simp only [step, Option.map_eq_some', Prod.exists, exists_and_right, exists_eq_right] at hres
    obtain ⟨rep, hres⟩ := hres
    exact WellFormed_new h s s1 argv rep hwf hres
  | kill argv =>
    simp only [step, Option.map_eq_some', Prod.exists, exists_and_right, exists_eq_right] at hres
    obtain ⟨rep, hres⟩ := hres
    exact WellFormed_kill h s s1 argv rep hwf hres
  | info argv =>
    simp only [step, Option.map_eq_some', Prod.exists, exists_and_right, exists_eq_right] at hres
    obtain ⟨rep, hres⟩ := hres
    rw [TimerInfoCommand_state h s s1 argv rep hres]
    exact hwf
  | list argv =>
    simp only [step, Option.map_eq_some', Prod.exists, exists_and_right, exists_eq_right] at hres
    obtain ⟨rep, hres⟩ := hres
    rw [TimerListCommand_state h s s1 argv rep hres]
    exact hwf
  | fire tid => exact WellFormed_fire h s s1 tid hwf hres

theorem WellFormed_run (steps : List (Host × Step)) :
    ∀ (s t : State), WellFormed s → run s steps = some t → WellFormed t := by
  induction steps with
  | nil =>
    intro s t hwf hrun
    simp only [run, Option.some.injEq] at hrun
    rw [← hrun]; exact hwf
  | cons x rest ih =>
    intro s t hwf hrun
    obtain ⟨h, st⟩ := x
    simp only [run] at hrun
    split at hrun
    · exact Option.noConfusion hrun
    · rename_i s1 hstep
      exact ih s1 t (WellFormed_step h s s1 st hwf hstep) hrun

/-! ## In a well-formed state no command meets a dangling pointer -/

theorem listEntries_spec (s : State) :
    ∀ (l : List (Bytes × Ptr)),
      (∀ k p, (k, p) ∈ l → ∃ td, alGet s.heap p = some td ∧ td.id = k) →
      ∃ items, listEntries s l = some items ∧
        List.Forall₂ (fun e i => ∃ td, alGet s.heap e.2 = some td ∧
          i = ReplyWithTimerData s td) l items ∧
        items.map (fun i => i.id) = l.map Prod.fst := by
  intro l
  induction l with
  | nil =>
    intro _
    exact ⟨[], rfl, List.Forall₂.nil, rfl⟩
  | cons e rest ih =>
    intro hl
    obtain ⟨k, p⟩ := e
    obtain ⟨td, hlive, hid⟩ := hl k p (List.mem_cons_self _ _)
    obtain ⟨items, hrest, hrel, hids⟩ :=
      ih (fun k1 p1 hmem => hl k1 p1 (List.mem_cons_of_mem _ hmem))
    refine ⟨ReplyWithTimerData s td :: items, ?_, ?_, ?_⟩
    · simp [listEntries, hlive, hrest]
    · exact List.Forall₂.cons ⟨td, hlive, rfl⟩ hrel
    · simp [ReplyWithTimerData, hid, hids]

theorem TimerKillCommand_total (h : Host) (s : State) (argv : List Bytes)
    (hwf : WellFormed s) : ∃ s1 rep, TimerKillCommand h s argv = some (s1, rep) := by
  unfold TimerKillCommand
  split
  · exact ⟨_, _, rfl⟩
  · simp only
    generalize readId h (argv.getD 1 []) = id
    split
    · exact ⟨_, _, rfl⟩
    · rename_i p hp
      obtain ⟨td, hlive, -⟩ := hwf.stored_live id p (alGet_mem _ _ _ hp)
      rw [hlive]
      simp only
      split <;> exact ⟨_, _, rfl⟩

theorem TimerInfoCommand_total (h : Host) (s : State) (argv : List Bytes)
    (hwf : WellFormed s) : ∃ rep, TimerInfoCommand h s argv = some (s, rep) := by
  unfold TimerInfoCommand
  split
  · exact ⟨_, rfl⟩
  · simp only
    generalize readId h (argv.getD 1 []) = id
    split
    · exact ⟨_, rfl⟩
    · rename_i p hp
      obtain ⟨td, hlive, -⟩ := hwf.stored_live id p (alGet_mem _ _ _ hp)
      rw [hlive]
      exact ⟨_, rfl⟩

theorem DictIterate_perm (d : List (Bytes × Ptr)) : List.Perm (DictIterate d) d :=
  List.perm_insertionSort _ d

theorem mem_DictIterate (d : List (Bytes × Ptr)) (e : Bytes × Ptr) :
    e ∈ DictIterate d ↔ e ∈ d :=
  (DictIterate_perm d).mem_iff

theorem keyLe_total : ∀ (a b : Bytes), keyLe a b = true ∨ keyLe b a = true := by
  intro a
  induction a with
  | nil => intro b; exact Or.inl (by simp [keyLe])
  | cons x xs ih =>
    intro b
    cases b with
    | nil => exact Or.inr (by simp [keyLe])
    | cons y ys =>
      rcases Nat.lt_trichotomy x y with hlt | heq | hgt
      · exact Or.inl (by simp [keyLe, hlt])
      · subst heq
        rcases ih ys with h1 | h1
        · exact Or.inl (by simp [keyLe, h1])
        · exact Or.inr (by simp [keyLe, h1])
      · exact Or.inr (by simp [keyLe, hgt])

theorem keyLe_trans : ∀ (a b c : Bytes), keyLe a b = true → keyLe b c = true →
    keyLe a c = true := by
  intro a
  induction a with
  | nil => intro b c _ _; simp [keyLe]
  | cons x xs ih =>
    intro b c hab hbc
    cases b with
    | nil => simp [keyLe] at hab
    | cons y ys =>
      cases c with
      | nil => simp [keyLe] at hbc
      | cons z zs =>
        simp only [keyLe] at hab hbc ⊢
        by_cases hxy : x < y
        · by_cases hyz : y < z
          · have : x < z := Nat.lt_trans hxy hyz
            simp [this]
          · by_cases hzy : z < y
            · simp [hyz, hzy] at hbc
            · have hyz1 : y = z := Nat.le_antisymm (Nat.le_of_not_lt hzy) (Nat.le_of_not_lt hyz)
              subst hyz1
              simp [hxy]
        · by_cases hyx : y < x
          · simp [hxy, hyx] at hab
          · have hxy1 : x = y := Nat.le_antisymm (Nat.le_of_not_lt hyx) (Nat.le_of_not_lt hxy)
            subst hxy1
            simp only [hxy, if_false] at hab
            by_cases hxz : x < z
            · simp [hxz]
            · by_cases hzx : z < x
              · simp [hxz, hzx] at hbc
              · simp only [hxz, hzx, if_false] at hbc ⊢
                exact ih ys zs hab hbc

/-- The iterator yields the entries in the order `keyLe` of their keys. -/
theorem DictIterate_sorted (d : List (Bytes × Ptr)) :
    List.Sorted (fun a b : Bytes × Ptr => keyLe a.1 b.1 = true) (DictIterate d) := by
  haveI : IsTotal (Bytes × Ptr) (fun a b => keyLe a.1 b.1 = true) :=
    ⟨fun a b => keyLe_total a.1 b.1⟩
  haveI : IsTrans (Bytes × Ptr) (fun a b => keyLe a.1 b.1 = true) :=
    ⟨fun a b c hab hbc => keyLe_trans a.1 b.1 c.1 hab hbc⟩
  exact List.sorted_insertionSort _ d

theorem TimerListCommand_total (h : Host) (s : State) (argv : List Bytes)
    (hwf : WellFormed s) : ∃ rep, TimerListCommand h s argv = some (s, rep) := by
  obtain ⟨items, hitems, -, -⟩ := listEntries_spec s (DictIterate s.timers)
    (fun k p hmem => hwf.stored_live k p ((mem_DictIterate _ _).mp hmem))
  unfold TimerListCommand
  split
  · exact ⟨_, rfl⟩
  · rw [hitems]
    exact ⟨_, rfl⟩

theorem fireTimer_total (h : Host) (s : State) (tid : RedisModuleTimerID) (x : Nat × Ptr)
    (hwf : WellFormed s) (harmed : alGet s.armed tid = some x) :
    ∃ s1, fireTimer h s tid = some s1 := by
  obtain ⟨td, hlive, -⟩ := hwf.armed_live tid x harmed
  obtain ⟨rem, data⟩ := x
  simp only [fireTimer, harmed]
  cases hscript : ScriptExists h td.sha1 with
  | false => exact ⟨_, TimerCallback_stale_eq h _ data td hlive hscript⟩
  | true =>
    by_cases hzero : td.interval = 0
    · exact ⟨_, TimerCallback_once_eq h _ data td hlive hscript hzero⟩
    · exact ⟨_, TimerCallback_rearm_eq h _ data td hlive hscript hzero⟩

/-! ## TIMER.LIST after a run of TIMER.NEW calls -/

theorem listEntries_entryInfo (s : State) :
    ∀ (l : List (Bytes × Ptr)) (items : List TimerInfo),
      listEntries s l = some items → items.map some = l.map (entryInfo s) := by
  intro l
  induction l with
  | nil =>
    intro items hitems
    simp only [listEntries, Option.some.injEq] at hitems
    subst hitems
    rfl
  | cons e rest ih =>
    intro items hitems
    obtain ⟨k, p⟩ := e
    cases hlive : alGet s.heap p with
    | none => simp [listEntries, hlive] at hitems
    | some td =>
      cases hrest : listEntries s rest with
      | none => simp [listEntries, hlive, hrest] at hitems
      | some items1 =>
        simp only [listEntries, hlive, hrest, Option.some.injEq] at hitems
        subst hitems
        simp [entryInfo, hlive, ih items1 hrest]

theorem entryInfo_fields (t : State) (ents : List (Bytes × Ptr))
    (infos : List (Bytes × Bytes × Int))
    (hrel : List.Forall₂ (fun e info => ∃ td, alGet t.heap e.2 = some td ∧
      (td.id, td.sha1, td.interval) = info) ents infos) :
    (ents.map (entryInfo t)).map (Option.map infoFields) = infos.map some := by
  induction hrel with
  | nil => rfl
  | @cons e info ents1 infos1 hhead _ ih =>
    obtain ⟨td, hlive, hinfo⟩ := hhead
    simp only [List.map_cons, ih, List.cons.injEq, and_true]
    simp [entryInfo, hlive, infoFields, ReplyWithTimerData, hinfo]

theorem WellFormed_runCreates (calls : List (Host × List Bytes)) :
    ∀ (s t : State) (infos : List (Bytes × Bytes × Int)), WellFormed s →
      runCreates s calls = some (t, infos) → WellFormed t := by
  induction calls with
  | nil =>
    intro s t infos hwf hrun
    simp only [runCreates, Option.some.injEq, Prod.mk.injEq] at hrun
    rw [← hrun.1]; exact hwf
  | cons x rest ih =>
    intro s t infos hwf hrun
    obtain ⟨h, argv⟩ := x
    cases hnew : TimerNewCommand h s argv with
    | none => simp [runCreates, hnew] at hrun
    | some r =>
      obtain ⟨s1, rep⟩ := r
      cases rep with
      | wrongArity => simp [runCreates, hnew] at hrun
      | error e => simp [runCreates, hnew] at hrun
      | ok => simp [runCreates, hnew] at hrun
      | timerData i => simp [runCreates, hnew] at hrun
      | array cnt items => simp [runCreates, hnew] at hrun
      | stringBuffer id =>
        cases hrest : runCreates s1 rest with
        | none => simp [runCreates, hnew, hrest] at hrun
        | some r1 =>
          obtain ⟨t1, infos1⟩ := r1
          simp only [runCreates, hnew, hrest, Option.some.injEq, Prod.mk.injEq] at hrun
          rw [← hrun.1]
          exact ih s1 t1 infos1 (WellFormed_new h s s1 argv _ hwf hnew) hrest

/-- What TIMER.LIST replies when every entry of the dictionary points to a live
record carrying its key: one tuple per entry, in the order of the iterator. -/
theorem TimerListCommand_listing (h : Host) (s : State) (cmd : Bytes)
    (hstored : ∀ k p, (k, p) ∈ s.timers → ∃ td, alGet s.heap p = some td ∧ td.id = k) :
    ∃ items, TimerListCommand h s [cmd] = some (s, Reply.array s.timers.length items) ∧
      items.length = s.timers.length ∧
      List.Perm (items.map some) (s.timers.map (entryInfo s)) ∧
      List.Perm (items.map (fun i => i.id)) (s.timers.map Prod.fst) := by
  obtain ⟨items, hitems, hrel, hids⟩ := listEntries_spec s (DictIterate s.timers)
    (fun k p hmem => hstored k p ((mem_DictIterate _ _).mp hmem))
  have hlen : items.length = s.timers.length := by
    rw [← List.Forall₂.length_eq hrel]
    exact (DictIterate_perm s.timers).length_eq
  refine ⟨items, ?_, hlen, ?_, ?_⟩
  · simp [TimerListCommand, hitems, hlen]
  · rw [listEntries_entryInfo s _ items hitems]
    exact (DictIterate_perm s.timers).map _
  · rw [hids]
    exact (DictIterate_perm s.timers).map _

theorem runCreates_spec (calls : List (Host × List Bytes)) :
    ∀ (s t : State) (infos : List (Bytes × Bytes × Int)), WellFormed s →
      runCreates s calls = some (t, infos) →
      (∀ p td, alGet s.heap p = some td → alGet t.heap p = some td) ∧
      ∃ ents, t.timers = ents ++ s.timers ∧ ents.length = calls.length ∧
        List.Forall₂ (fun e info => ∃ td, alGet t.heap e.2 = some td ∧
          (td.id, td.sha1, td.interval) = info) ents infos := by
  induction calls with
  | nil =>
    intro s t infos _ hrun
    simp only [runCreates, Option.some.injEq, Prod.mk.injEq] at hrun
    obtain ⟨hs, hinfos⟩ := hrun
    subst hs hinfos
    exact ⟨fun _ _ hget => hget, [], rfl, rfl, List.Forall₂.nil⟩
  | cons x rest ih =>
    intro s t infos hwf hrun
    obtain ⟨h, argv⟩ := x
    cases hnew : TimerNewCommand h s argv with
    | none => simp [runCreates, hnew] at hrun
    | some r =>
      obtain ⟨s1, rep⟩ := r
      cases rep with
      | wrongArity => simp [runCreates, hnew] at hrun
      | error e => simp [runCreates, hnew] at hrun
      | ok => simp [runCreates, hnew] at hrun
      | timerData i => simp [runCreates, hnew] at hrun
      | array cnt items => simp [runCreates, hnew] at hrun
      | stringBuffer id =>
        cases hrest : runCreates s1 rest with
        | none => simp [runCreates, hnew, hrest] at hrun
        | some r1 =>
          obtain ⟨t1, infos1⟩ := r1
          simp only [runCreates, hnew, hrest, Option.some.injEq, Prod.mk.injEq] at hrun
          obtain ⟨ht, hinfos⟩ := hrun
          subst ht hinfos
          have hwf1 := WellFormed_new h s s1 argv _ hwf hnew
          obtain ⟨hkeep, ents, htimers, hlen, hrel⟩ := ih s1 t1 infos1 hwf1 hrest
          obtain ⟨hgen, -, -, interval, hparse, -, hs1⟩ :=
            TimerNewCommand_success h s s1 argv id hnew
          obtain ⟨habs, -⟩ := generateId_fresh s.timers h.random id hgen
          have htimers1 : s1.timers = (id, s.nextPtr) :: s.timers := by
            rw [hs1]
            show alSet s.timers id s.nextPtr = _
            simp only [alSet]
            rw [alDel_of_absent s.timers id habs]
          have hnew1 : alGet s1.heap s.nextPtr = some (newRecord s argv id interval) := by
            rw [hs1]; simp [armedState, alGet_alSet_self]
          have hkeep1 : ∀ p td, alGet s.heap p = some td → alGet s1.heap p = some td := by
            intro p td hget
            have hne : p ≠ s.nextPtr := ne_of_lt (hwf.live_stored p td hget).1
            rw [hs1]
            simp only [armedState]
            rw [alGet_alSet_ne _ _ _ _ hne, alGet_alSet_ne _ _ _ _ hne]
            exact hget
          refine ⟨fun p td hget => hkeep p td (hkeep1 p td hget),
            ents ++ [(id, s.nextPtr)], ?_, ?_, ?_⟩
          · rw [htimers, htimers1]; simp
          · simp [hlen]
          · refine List.rel_append hrel (List.Forall₂.cons ?_ List.Forall₂.nil)
            refine ⟨newRecord s argv id interval, hkeep _ _ hnew1, ?_⟩
            simp only [newRecord, createdInfo, hparse, Option.getD_some]

/-! ## C1: uniqueness of identifiers -/

/-- C1. Whenever the random draws of a TIMER.NEW call contain an identifier that
is not a key of the dictionary, the call returns; when it succeeds, the
identifier it replies was not a key before the call, every entry of the
dictionary before the call is still there under the same key, and the new
record is stored under the replied identifier.  In every state reached from the
loaded module by TIMER.NEW calls, every live record is stored in the dictionary
under its own identifier and no two live records share an identifier. -/
theorem TimerNewCommand_unique_id (h : Host) (s : State) (argv : List Bytes)
    (hdraw : ∃ r ∈ h.random, DictGetC s.timers (GetRandomHexChars r) = none) :
    (∃ s1 rep, TimerNewCommand h s argv = some (s1, rep) ∧
      ∀ id, rep = Reply.stringBuffer id →
        DictGetC s.timers id = none ∧
        (∀ k p, DictGetC s.timers k = some p → DictGetC s1.timers k = some p) ∧
        DictGetC s1.timers id = some s.nextPtr ∧
        ∃ td, alGet s1.heap s.nextPtr = some td ∧ td.id = id) ∧
    (∀ t, CreateReachable t →
      (∀ p td, alGet t.heap p = some td → DictGetC t.timers td.id = some p) ∧
      NoSharedIds t) := by
  constructor
  · obtain ⟨s1, rep, hres⟩ := TimerNewCommand_returns h s argv hdraw
    refine ⟨s1, rep, hres, ?_⟩
    intro id hid
    subst hid
    obtain ⟨hgen, -, -, interval, -, -, hs1⟩ := TimerNewCommand_success h s s1 argv id hres
    obtain ⟨hfresh, -⟩ := generateId_fresh s.timers h.random id hgen
    subst hs1
    refine ⟨hfresh, ?_, ?_, ?_⟩
    · intro k p hk
      have hne : k ≠ id := by
        intro heq
        rw [heq, hfresh] at hk
        exact Option.noConfusion hk
      simpa [DictGetC, DictSetC, alGet_alSet_ne _ _ _ _ hne] using hk
    · simp [DictGetC, DictSetC, alGet_alSet_self]
    · exact ⟨newRecord s argv id interval, by simp [armedState, alGet_alSet_self], rfl⟩
  · intro t hreach
    have hreg := Registered_of_CreateReachable t hreach
    exact ⟨fun p td hget => (hreg p td hget).2, NoSharedIds_of_Registered t hreg⟩

/-- Instance of C1: a second TIMER.NEW whose first draw collides with the live
identifier and whose second draw is free. -/
theorem TimerNewCommand_unique_id_witness :
    (∃ r ∈ (hostOk [7, 8]).random, DictGetC stateOne.timers (GetRandomHexChars r) = none) ∧
    ((∃ s1 rep, TimerNewCommand (hostOk [7, 8]) stateOne [cmdNew, arg100, shaA] = some (s1, rep) ∧
      ∀ id, rep = Reply.stringBuffer id →
        DictGetC stateOne.timers id = none ∧
        (∀ k p, DictGetC stateOne.timers k = some p → DictGetC s1.timers k = some p) ∧
        DictGetC s1.timers id = some stateOne.nextPtr ∧
        ∃ td, alGet s1.heap stateOne.nextPtr = some td ∧ td.id = id) ∧
    (∀ t, CreateReachable t →
      (∀ p td, alGet t.heap p = some td → DictGetC t.timers td.id = some p) ∧
      NoSharedIds t)) :=
  ⟨⟨8, by decide, by decide⟩,
   TimerNewCommand_unique_id (hostOk [7, 8]) stateOne [cmdNew, arg100, shaA]
     ⟨8, by decide, by decide⟩⟩

/-! ## C2: no kill during a fire -/

/-- C2. Take a live record stored in the dictionary under its identifier.  In the
state right after the first statement of `TimerCallback` (the removal of the
record from the dictionary), TIMER.KILL with that identifier replies
"ERR invalid id" and returns that very state: no `RedisModule_StopTimer`, no
release, the record is still allocated. -/
theorem TimerKillCommand_during_fire (h : Host) (s : State) (p : Ptr) (td : TimerData)
    (cmd : Bytes) (hlive : alGet s.heap p = some td)
    (_hstored : DictGetC s.timers td.id = some p) (hlen : td.id.length = TimerIDLen) :
    TimerKillCommand h (TimerCallback_remove s td) [cmd, td.id] =
        some (TimerCallback_remove s td, Reply.error ErrMsg.invalidId) ∧
      (TimerCallback_remove s td).log = s.log ∧
      (TimerCallback_remove s td).armed = s.armed ∧
      alGet (TimerCallback_remove s td).heap p = some td := by
  refine ⟨TimerKillCommand_absent h _ cmd td.id hlen ?_, rfl, rfl, hlive⟩
  simp [TimerCallback_remove, DictGetC, DictDelC, alGet_alDel_self]

/-- Instance of C2 on the record of `stateOne`. -/
theorem TimerKillCommand_during_fire_witness :
    alGet stateOne.heap 0 = some { id := id7, tid := 0, sha1 := shaA, interval := 100 } ∧
    DictGetC stateOne.timers id7 = some 0 ∧
    id7.length = TimerIDLen ∧
    TimerKillCommand (hostOk [])
        (TimerCallback_remove stateOne { id := id7, tid := 0, sha1 := shaA, interval := 100 })
        [cmdKill, id7] =
      some (TimerCallback_remove stateOne { id := id7, tid := 0, sha1 := shaA, interval := 100 },
        Reply.error ErrMsg.invalidId) :=
  ⟨rfl, rfl, rfl,
   (TimerKillCommand_during_fire (hostOk []) stateOne 0
      { id := id7, tid := 0, sha1 := shaA, interval := 100 } cmdKill rfl rfl rfl).1⟩

/-! ## C3: the armed invariant -/

/-- C3 fails on the code: `TIMER.NEW 100 abcd LOOP`, then the alarm expires while
the host cannot arm a new alarm.  `TimerCallback` stores the handle it got
without checking it and puts the record back: the dictionary holds a record whose
handle is not armed.  `TimerNewCommand` checks the same call with
`RedisModule_GetTimerInfo` and backs out. -/
theorem rearm_failure_breaks_armed_invariant :
    run State.init [(hostOk [7], Step.new [cmdNew, arg100, shaA, LOOP]),
                    (hostNoArm [], Step.fire 0)] = some stateStuck ∧
    DictGetC stateStuck.timers id7 = some 0 ∧
    alGet stateStuck.heap 0 = some { id := id7, tid := 1, sha1 := shaA, interval := 100 } ∧
    GetTimerInfo stateStuck 1 = none ∧
    ¬ ArmedInvariant stateStuck ∧
    TimerNewCommand (hostNoArm [7]) State.init [cmdNew, arg100, shaA, LOOP] =
      some (stateBackedOut, Reply.error ErrMsg.cannotCreateTimer) := by
  refine ⟨rfl, rfl, rfl, rfl, ?_, rfl⟩
  intro hinv
  obtain ⟨td, htd, harm⟩ := hinv id7 0 rfl
  have htd1 : td = { id := id7, tid := 1, sha1 := shaA, interval := 100 } := by
    have h0 : alGet stateStuck.heap 0 =
        some { id := id7, tid := 1, sha1 := shaA, interval := 100 } := rfl
    rw [h0] at htd
    injection htd with htd
    exact htd.symm
  subst htd1
  exact harm rfl

/-! ## C4: a fire-once record is deleted by its fire -/

/-- C4. For a live record with `interval` 0, `TimerCallback` returns, and
afterwards the dictionary has no entry under the record's identifier, the alarm
table and the handle counter are as before (the log of host calls gained no
`createTimer`), and the record has been released: the log gained the run of the
script, if the script still existed, and then the release.  This holds for every
host, so whatever SCRIPT EXISTS and EVALSHA answered. -/
theorem TimerCallback_fire_once (h : Host) (s : State) (p : Ptr) (td : TimerData)
    (hlive : alGet s.heap p = some td) (hzero : td.interval = 0) :
    ∃ s1, TimerCallback h s p = some s1 ∧
      DictGetC s1.timers td.id = none ∧
      s1.armed = s.armed ∧ s1.nextTid = s.nextTid ∧
      alGet s1.heap p = none ∧
      s1.log = s.log ++ (if ScriptExists h td.sha1 then [Event.evalsha td.sha1] else []) ++
        [Event.free p] :=
  TimerCallback_interval_zero h s p td hlive hzero

/-- Instance of C4 on the record of `stateOnce`, the script being there. -/
theorem TimerCallback_fire_once_witness :
    alGet stateOnce.heap 0 = some { id := id7, tid := 0, sha1 := shaA, interval := 0 } ∧
    (0 : Int) = 0 ∧
    ∃ s1, TimerCallback (hostOk []) stateOnce 0 = some s1 ∧
      DictGetC s1.timers id7 = none ∧
      s1.armed = stateOnce.armed ∧ s1.nextTid = stateOnce.nextTid ∧
      alGet s1.heap 0 = none ∧
      s1.log = stateOnce.log ++
        (if ScriptExists (hostOk []) shaA then [Event.evalsha shaA] else []) ++ [Event.free 0] :=
  ⟨rfl, rfl,
   TimerCallback_fire_once (hostOk []) stateOnce 0
     { id := id7, tid := 0, sha1 := shaA, interval := 0 } rfl rfl⟩

/-! ## C5: a fire-once timer end to end -/

/-- C5 fails as stated: `TIMER.NEW 100 abcd` succeeds, the script is removed, the
timer fires; TIMER.INFO replies "ERR invalid id" and the script has been run 0
times, not once. -/
theorem fire_once_stale_not_executed :
    TimerNewCommand (hostOk [7]) State.init [cmdNew, arg100, shaA] =
      some (stateOnce, Reply.stringBuffer id7) ∧
    DictGetC stateOnce.timers id7 = some 0 ∧
    TimerCallback hostNoScript stateOnce 0 = some stateReaped ∧
    TimerInfoCommand (hostOk []) stateReaped [cmdInfo, id7] =
      some (stateReaped, Reply.error ErrMsg.invalidId) ∧
    executions stateReaped shaA = 0 ∧
    ¬ (executions stateReaped shaA = executions State.init shaA + 1) :=
  ⟨rfl, rfl, rfl, rfl, rfl, by decide⟩

theorem executions_append (s : State) (sha1 : Bytes) (evs : List Event) (s1 : State)
    (hlog : s1.log = s.log ++ evs) :
    executions s1 sha1 = executions s sha1 + evs.count (Event.evalsha sha1) := by
  simp [executions, hlog, List.count_append]

/-- C5, amended. After a successful TIMER.NEW without LOOP, the new record is stored
under the replied identifier; when `TimerCallback` then runs on that record, with
any host, it returns, TIMER.INFO with the replied identifier replies
"ERR invalid id", and the number of runs of the script has grown by one if the
script still existed at that time (`ScriptExists`), by none otherwise. -/
theorem fire_once_end_to_end (h h2 : Host) (s s1 : State) (argv : List Bytes) (id : Bytes)
    (hres : TimerNewCommand h s argv = some (s1, Reply.stringBuffer id))
    (hnoloop : argv.length = 3) :
    DictGetC s1.timers id = some s.nextPtr ∧
    ∃ s2, TimerCallback h2 s1 s.nextPtr = some s2 ∧
      (∀ (h3 : Host) (cmd : Bytes),
        TimerInfoCommand h3 s2 [cmd, id] = some (s2, Reply.error ErrMsg.invalidId)) ∧
      executions s2 (argv.getD 2 []) =
        executions s (argv.getD 2 []) + (if ScriptExists h2 (argv.getD 2 []) then 1 else 0) := by
  obtain ⟨hgen, -, -, interval, -, -, hs1⟩ := TimerNewCommand_success h s s1 argv id hres
  obtain ⟨-, hlen⟩ := generateId_fresh s.timers h.random id hgen
  have hlive : alGet s1.heap s.nextPtr = some (newRecord s argv id interval) := by
    rw [hs1]; simp [armedState, alGet_alSet_self]
  have hzero : (newRecord s argv id interval).interval = 0 := by
    simp [newRecord, hnoloop]
  have hstored : DictGetC s1.timers id = some s.nextPtr := by
    rw [hs1]; simp [DictGetC, DictSetC, alGet_alSet_self]
  obtain ⟨s2, hfire, habs, -, -, -, hlog⟩ :=
    TimerCallback_interval_zero h2 s1 s.nextPtr (newRecord s argv id interval) hlive hzero
  refine ⟨hstored, s2, hfire, ?_, ?_⟩
  · intro h3 cmd
    exact TimerInfoCommand_absent h3 s2 cmd id hlen habs
  · have hlog1 : s1.log = s.log ++
        [Event.alloc s.nextPtr, Event.createTimer interval s.nextPtr s.nextTid] := by
      rw [hs1]; rfl
    have hsha : (newRecord s argv id interval).sha1 = argv.getD 2 [] := rfl
    rw [hsha, hlog1, List.append_assoc, List.append_assoc] at hlog
    generalize argv.getD 2 [] = sha at hlog ⊢
    rw [executions_append s sha _ s2 hlog]
    cases hscript : ScriptExists h2 sha <;> simp [List.count_cons]

/-- Instance of C5, amended: `TIMER.NEW 100 abcd` on the loaded module, then the
fire with the script still there. -/
theorem fire_once_end_to_end_witness :
    TimerNewCommand (hostOk [7]) State.init [cmdNew, arg100, shaA] =
      some (stateOnce, Reply.stringBuffer id7) ∧
    [cmdNew, arg100, shaA].length = 3 ∧
    (DictGetC stateOnce.timers id7 = some State.init.nextPtr ∧
    ∃ s2, TimerCallback (hostOk []) stateOnce State.init.nextPtr = some s2 ∧
      (∀ (h3 : Host) (cmd : Bytes),
        TimerInfoCommand h3 s2 [cmd, id7] = some (s2, Reply.error ErrMsg.invalidId)) ∧
      executions s2 ([cmdNew, arg100, shaA].getD 2 []) =
        executions State.init ([cmdNew, arg100, shaA].getD 2 []) +
          (if ScriptExists (hostOk []) ([cmdNew, arg100, shaA].getD 2 []) then 1 else 0)) :=
  ⟨rfl, rfl,
   fire_once_end_to_end (hostOk [7]) (hostOk []) State.init stateOnce [cmdNew, arg100, shaA] id7
     rfl rfl⟩

/-! ## C6: a repeating timer across fires -/

theorem fires_rearm (p : Ptr) (hs : List Host) :
    ∀ (s : State) (td : TimerData), alGet s.heap p = some td →
      DictGetC s.timers td.id = some p → td.interval ≠ 0 →
      (∀ h ∈ hs, ScriptExists h td.sha1 = true) →
      ∃ sN tidN, fires s p hs = some sN ∧
        alGet sN.heap p = some { td with tid := tidN } ∧
        DictGetC sN.timers td.id = some p := by
  induction hs with
  | nil =>
    intro s td hlive hstored _ _
    exact ⟨s, td.tid, rfl, hlive, hstored⟩
  | cons h rest ih =>
    intro s td hlive hstored hloop hexists
    have hthere : ScriptExists h td.sha1 = true := hexists h (List.mem_cons_self _ _)
    have hstep := TimerCallback_rearm_eq h s p td hlive hthere hloop
    simp only [fires, hstep]
    obtain ⟨sN, tidN, hrun, hliveN, hstoredN⟩ :=
      ih (rearmedState h s p td) { td with tid := s.nextTid }
        (by simp [rearmedState, alGet_alSet_self])
        (by simp [rearmedState, DictGetC, DictSetC, alGet_alSet_self])
        hloop
        (fun h1 hmem => hexists h1 (List.mem_cons_of_mem _ hmem))
    exact ⟨sN, tidN, hrun, hliveN, hstoredN⟩

/-- C6 fails as stated at the interval 0: `TIMER.NEW 0 abcd LOOP` succeeds, the
script exists, and after one fire the timer is gone. -/
theorem loop_zero_interval_dies :
    TimerNewCommand (hostOk [7]) State.init [cmdNew, arg0, shaA, LOOP] =
      some (stateZeroLoop, Reply.stringBuffer id7) ∧
    DictGetC stateZeroLoop.timers id7 = some 0 ∧
    ScriptExists (hostOk []) shaA = true ∧
    fires stateZeroLoop 0 [hostOk []] = some stateZeroDone ∧
    DictGetC stateZeroDone.timers id7 = none ∧
    TimerInfoCommand (hostOk []) stateZeroDone [cmdInfo, id7] =
      some (stateZeroDone, Reply.error ErrMsg.invalidId) :=
  ⟨rfl, rfl, rfl, rfl, rfl, rfl⟩

/-- C6, amended. After a successful TIMER.NEW with LOOP whose delay parsed to an
interval `I` other than 0, the new record is stored under the replied
identifier; after any number of runs of `TimerCallback` on that record, each
with a host in which the script exists, the record is still stored under the
same identifier and TIMER.INFO with it replies that identifier, the script given
to TIMER.NEW and the interval `I`. -/
theorem fires_keep_repeating_timer (h : Host) (s s1 : State) (argv : List Bytes) (id : Bytes)
    (I : Int) (hs : List Host)
    (hres : TimerNewCommand h s argv = some (s1, Reply.stringBuffer id))
    (hloop : argv.length = 4) (hI : h.StringToLongLong (argv.getD 1 []) = some I)
    (hne : I ≠ 0) (hexists : ∀ h1 ∈ hs, ScriptExists h1 (argv.getD 2 []) = true) :
    DictGetC s1.timers id = some s.nextPtr ∧
    ∃ sN, fires s1 s.nextPtr hs = some sN ∧
      DictGetC sN.timers id = some s.nextPtr ∧
      ∀ (h3 : Host) (cmd : Bytes), ∃ rem,
        TimerInfoCommand h3 sN [cmd, id] =
          some (sN, Reply.timerData
            { id := id, sha1 := argv.getD 2 [], rem := rem, interval := I }) := by
  obtain ⟨hgen, -, -, interval, hparse, -, hs1⟩ := TimerNewCommand_success h s s1 argv id hres
  obtain ⟨-, hlen⟩ := generateId_fresh s.timers h.random id hgen
  rw [hI] at hparse
  injection hparse with hparse
  subst hparse
  have hlive : alGet s1.heap s.nextPtr = some (newRecord s argv id I) := by
    rw [hs1]; simp [armedState, alGet_alSet_self]
  have hstored : DictGetC s1.timers id = some s.nextPtr := by
    rw [hs1]; simp [DictGetC, DictSetC, alGet_alSet_self]
  have hint : (newRecord s argv id I).interval = I := by simp [newRecord, hloop]
  obtain ⟨sN, tidN, hrun, hliveN, hstoredN⟩ :=
    fires_rearm s.nextPtr hs s1 (newRecord s argv id I) hlive hstored (by rw [hint]; exact hne)
      hexists
  refine ⟨hstored, sN, hrun, hstoredN, ?_⟩
  intro h3 cmd
  refine ⟨castLongLong ((GetTimerInfo sN tidN).getD 0), ?_⟩
  have hkey : DictGetC sN.timers id = some s.nextPtr := hstoredN
  simp only [TimerInfoCommand, List.length_cons, List.length_nil]
  simp only [List.getD_cons_succ, List.getD_cons_zero, readId_of_length h3 id hlen, hkey, hliveN]
  simp [ReplyWithTimerData, newRecord, hloop]

/-- Instance of C6, amended: `TIMER.NEW 100 abcd LOOP` on the loaded module, then
two fires with the script there. -/
theorem fires_keep_repeating_timer_witness :
    TimerNewCommand (hostOk [7]) State.init [cmdNew, arg100, shaA, LOOP] =
      some (stateOne, Reply.stringBuffer id7) ∧
    [cmdNew, arg100, shaA, LOOP].length = 4 ∧
    (hostOk [7]).StringToLongLong ([cmdNew, arg100, shaA, LOOP].getD 1 []) = some 100 ∧
    (100 : Int) ≠ 0 ∧
    (∀ h1 ∈ [hostOk [], hostOk []],
      ScriptExists h1 ([cmdNew, arg100, shaA, LOOP].getD 2 []) = true) ∧
    (DictGetC stateOne.timers id7 = some State.init.nextPtr ∧
    ∃ sN, fires stateOne State.init.nextPtr [hostOk [], hostOk []] = some sN ∧
      DictGetC sN.timers id7 = some State.init.nextPtr ∧
      ∀ (h3 : Host) (cmd : Bytes), ∃ rem,
        TimerInfoCommand h3 sN [cmd, id7] =
          some (sN, Reply.timerData
            { id := id7, sha1 := [cmdNew, arg100, shaA, LOOP].getD 2 [], rem := rem,
              interval := 100 })) :=
  have hexists : ∀ h1 ∈ [hostOk [], hostOk []],
      ScriptExists h1 ([cmdNew, arg100, shaA, LOOP].getD 2 []) = true := by
    intro h1 hmem
    simp only [List.mem_cons, List.mem_singleton, List.not_mem_nil, or_false, or_self] at hmem
    rw [hmem]
    rfl
  ⟨rfl, rfl, rfl, by decide, hexists,
   fires_keep_repeating_timer (hostOk [7]) State.init stateOne [cmdNew, arg100, shaA, LOOP] id7
     100 [hostOk [], hostOk []] rfl rfl rfl (by decide) hexists⟩

/-! ## C7: a record whose script is gone is reaped -/

/-- C7. For a live record, repeating or not, whose script does not exist any more
when `TimerCallback` runs (`ScriptExists` is false), `TimerCallback` returns, the
dictionary has no entry under the record's identifier, the record is released,
and the only host call logged is that release: no EVALSHA, no
`RedisModule_CreateTimer` (alarm table and handle counter as before).  TIMER.INFO
and TIMER.KILL with that identifier then reply "ERR invalid id" and change
nothing. -/
theorem TimerCallback_stale_task (h : Host) (s : State) (p : Ptr) (td : TimerData)
    (hlive : alGet s.heap p = some td) (hgone : ScriptExists h td.sha1 = false)
    (hlen : td.id.length = TimerIDLen) :
    ∃ s1, TimerCallback h s p = some s1 ∧
      DictGetC s1.timers td.id = none ∧
      alGet s1.heap p = none ∧
      s1.log = s.log ++ [Event.free p] ∧
      s1.armed = s.armed ∧ s1.nextTid = s.nextTid ∧
      ∀ (h1 : Host) (cmd : Bytes),
        TimerInfoCommand h1 s1 [cmd, td.id] = some (s1, Reply.error ErrMsg.invalidId) ∧
        TimerKillCommand h1 s1 [cmd, td.id] = some (s1, Reply.error ErrMsg.invalidId) := by
  have habs : DictGetC (DeleteTimerData (TimerCallback_remove s td) p).timers td.id = none := by
    simp [DeleteTimerData, TimerCallback_remove, DictGetC, DictDelC, alGet_alDel_self]
  refine ⟨_, TimerCallback_stale_eq h s p td hlive hgone, habs, ?_, rfl, rfl, rfl, ?_⟩
  · simp [DeleteTimerData, TimerCallback_remove, alGet_alDel_self]
  · intro h1 cmd
    exact ⟨TimerInfoCommand_absent h1 _ cmd td.id hlen habs,
      TimerKillCommand_absent h1 _ cmd td.id hlen habs⟩

/-- Instance of C7 on the repeating record of `stateOne`. -/
theorem TimerCallback_stale_task_witness :
    alGet stateOne.heap 0 = some { id := id7, tid := 0, sha1 := shaA, interval := 100 } ∧
    ScriptExists hostNoScript shaA = false ∧
    id7.length = TimerIDLen ∧
    ∃ s1, TimerCallback hostNoScript stateOne 0 = some s1 ∧
      DictGetC s1.timers id7 = none ∧
      alGet s1.heap 0 = none ∧
      s1.log = stateOne.log ++ [Event.free 0] ∧
      s1.armed = stateOne.armed ∧ s1.nextTid = stateOne.nextTid ∧
      ∀ (h1 : Host) (cmd : Bytes),
        TimerInfoCommand h1 s1 [cmd, id7] = some (s1, Reply.error ErrMsg.invalidId) ∧
        TimerKillCommand h1 s1 [cmd, id7] = some (s1, Reply.error ErrMsg.invalidId) :=
  ⟨rfl, rfl, rfl,
   TimerCallback_stale_task hostNoScript stateOne 0
     { id := id7, tid := 0, sha1 := shaA, interval := 100 } rfl rfl rfl⟩

/-! ## C8: kill with an argument that is no live identifier -/

/-- C8 fails on the code: in `stateOne` the only live identifier is "7000000000".
TIMER.KILL with the 12-byte argument "7000000000ab", which is the identifier of
no live timer, reads the first `TimerIDLen` bytes of the argument only: it finds
the record, stops its alarm, removes and releases it, and replies OK. -/
theorem TimerKillCommand_longer_argument :
    id7ab.length = 12 ∧
    stateOne.timers = [(id7, 0)] ∧
    id7ab ≠ id7 ∧
    DictGetC stateOne.timers id7ab = none ∧
    readId (hostOk []) id7ab = id7 ∧
    TimerKillCommand (hostOk []) stateOne [cmdKill, id7ab] = some (stateKilled, Reply.ok) ∧
    stateKilled.timers = [] ∧
    Event.stopTimer 0 true ∈ stateKilled.log ∧
    Event.free 0 ∈ stateKilled.log :=
  ⟨rfl, rfl, by decide, rfl, rfl, rfl, rfl, by decide, by decide⟩

/-! ## C9: TIMER.NEW changes nothing when it fails -/

/-- C9. Whenever TIMER.NEW replies an error (wrong arity or any error message),
the dictionary after the call is the dictionary before it, every record other
than the one the call may have allocated is untouched, and every allocation the
call logged is followed by its release in the log, the address being no live
record afterwards. -/
theorem TimerNewCommand_atomic_on_error (h : Host) (s s1 : State) (argv : List Bytes)
    (rep : Reply) (hres : TimerNewCommand h s argv = some (s1, rep))
    (herr : rep = Reply.wrongArity ∨ ∃ e, rep = Reply.error e) :
    s1.timers = s.timers ∧
    (∀ q, q ≠ s.nextPtr → alGet s1.heap q = alGet s.heap q) ∧
    ∃ evs, s1.log = s.log ++ evs ∧
      ∀ p, Event.alloc p ∈ evs → Event.free p ∈ evs ∧ alGet s1.heap p = none := by
  have hrep : ∀ id, rep ≠ Reply.stringBuffer id := by
    intro id hid
    rcases herr with hw | ⟨e, he⟩
    · rw [hw] at hid; exact Reply.noConfusion hid
    · rw [he] at hid; exact Reply.noConfusion hid
  rcases TimerNewCommand_failure h s s1 argv rep hres hrep with hs | ⟨-, id, interval, hs⟩
  · subst hs
    exact ⟨rfl, fun _ _ => rfl, [], by simp, by simp⟩
  · subst hs
    refine ⟨rfl, ?_, [Event.alloc s.nextPtr, Event.createTimer interval s.nextPtr s.nextTid,
      Event.free s.nextPtr], ?_, ?_⟩
    · intro q hq
      simp only [DeleteTimerData, armedState]
      rw [alGet_alDel_ne _ _ _ hq, alGet_alSet_ne _ _ _ _ hq, alGet_alSet_ne _ _ _ _ hq]
    · simp [DeleteTimerData, armedState]
    · intro p hp
      simp only [List.mem_cons, Event.alloc.injEq, List.mem_singleton, List.not_mem_nil,
        or_false, false_or, reduceCtorEq] at hp
      subst hp
      exact ⟨by simp, by simp [DeleteTimerData, armedState, alGet_alDel_self]⟩

/-- Instance of C9: a TIMER.NEW whose alarm cannot be armed. -/
theorem TimerNewCommand_atomic_on_error_witness :
    TimerNewCommand (hostNoArm [7]) State.init [cmdNew, arg100, shaA, LOOP] =
      some (stateBackedOut, Reply.error ErrMsg.cannotCreateTimer) ∧
    (Reply.error ErrMsg.cannotCreateTimer = Reply.wrongArity ∨
      ∃ e, Reply.error ErrMsg.cannotCreateTimer = Reply.error e) ∧
    (stateBackedOut.timers = State.init.timers ∧
    (∀ q, q ≠ State.init.nextPtr → alGet stateBackedOut.heap q = alGet State.init.heap q) ∧
    ∃ evs, stateBackedOut.log = State.init.log ++ evs ∧
      ∀ p, Event.alloc p ∈ evs → Event.free p ∈ evs ∧ alGet stateBackedOut.heap p = none) :=
  ⟨rfl, Or.inr ⟨ErrMsg.cannotCreateTimer, rfl⟩,
   TimerNewCommand_atomic_on_error (hostNoArm [7]) State.init stateBackedOut
     [cmdNew, arg100, shaA, LOOP] (Reply.error ErrMsg.cannotCreateTimer) rfl
     (Or.inr ⟨ErrMsg.cannotCreateTimer, rfl⟩)⟩

/-! ## C10: validation by TIMER.NEW -/

/-- C10. For a TIMER.NEW with 3 or 4 arguments: it replies "ERR invalid interval"
exactly when `RedisModule_StringToLongLong` rejects the delay argument, and it
replies "ERR invalid script" exactly when the delay is accepted and
`ScriptExists` is false for the script argument.  In both cases the state after
the call is the state before it: no alarm was asked for, nothing was logged. -/
theorem TimerNewCommand_validation (h : Host) (s s1 : State) (argv : List Bytes)
    (hshape : argv.length = 3 ∨ argv.length = 4) :
    (TimerNewCommand h s argv = some (s1, Reply.error ErrMsg.invalidInterval) ↔
      h.StringToLongLong (argv.getD 1 []) = none ∧ s1 = s) ∧
    (TimerNewCommand h s argv = some (s1, Reply.error ErrMsg.invalidScript) ↔
      (∃ v, h.StringToLongLong (argv.getD 1 []) = some v) ∧
        ScriptExists h (argv.getD 2 []) = false ∧ s1 = s) := by
  have harity : ¬ (argv.length < 3 ∨ argv.length > 4) := by omega
  rw [TimerNewCommand_eq, if_neg harity]
  cases hparse : h.StringToLongLong (argv.getD 1 []) with
  | none =>
    refine ⟨⟨fun hh => ?_, fun hh => ?_⟩, ?_⟩
    · simp only [Option.some.injEq, Prod.mk.injEq] at hh
      exact ⟨rfl, hh.1.symm⟩
    · rw [hh.2]
    · simp
  | some v =>
    simp only
    by_cases hscript : ScriptExists h (argv.getD 2 []) = false
    · rw [if_pos hscript]
      constructor
      · simp
      · constructor
        · intro hh
          simp only [Option.some.injEq, Prod.mk.injEq] at hh
          exact ⟨⟨v, rfl⟩, hscript, hh.1.symm⟩
        · intro hh
          rw [hh.2.2]
    · rw [if_neg hscript]
      constructor
      · constructor
        · intro hh
          split at hh
          · simp at hh
          · split at hh
            · simp at hh
            · split at hh <;> simp at hh
        · intro hh
          simp at hh
      · constructor
        · intro hh
          split at hh
          · simp at hh
          · split at hh
            · simp at hh
            · split at hh <;> simp at hh
        · intro hh
          exact absurd hh.2.1 hscript

/-- Instance of C10: `TIMER.NEW x abcd`. -/
theorem TimerNewCommand_validation_witness :
    ([cmdNew, argX, shaA].length = 3 ∨ [cmdNew, argX, shaA].length = 4) ∧
    ((TimerNewCommand (hostOk [7]) stateOne [cmdNew, argX, shaA] =
        some (stateOne, Reply.error ErrMsg.invalidInterval) ↔
      (hostOk [7]).StringToLongLong ([cmdNew, argX, shaA].getD 1 []) = none ∧
        stateOne = stateOne) ∧
    (TimerNewCommand (hostOk [7]) stateOne [cmdNew, argX, shaA] =
        some (stateOne, Reply.error ErrMsg.invalidScript) ↔
      (∃ v, (hostOk [7]).StringToLongLong ([cmdNew, argX, shaA].getD 1 []) = some v) ∧
        ScriptExists (hostOk [7]) ([cmdNew, argX, shaA].getD 2 []) = false ∧
        stateOne = stateOne)) :=
  ⟨Or.inl rfl,
   TimerNewCommand_validation (hostOk [7]) stateOne stateOne [cmdNew, argX, shaA] (Or.inl rfl)⟩

/-! ## C11: what a successful TIMER.NEW leaves -/

theorem TimerKillCommand_unarmed_eq (h : Host) (s : State) (cmd id : Bytes) (p : Ptr)
    (td : TimerData) (hlen : id.length = TimerIDLen)
    (hstored : DictGetC s.timers id = some p) (hlive : alGet s.heap p = some td)
    (hdead : alGet s.armed td.tid = none) :
    TimerKillCommand h s [cmd, id] =
      some ({ s with log := s.log ++ [Event.stopTimer td.tid false] },
        Reply.error ErrMsg.cannotStopTimer) := by
  simp [TimerKillCommand, readId_of_length h id hlen, hstored, hlive, StopTimer, hdead]

/-- C13. In every state reached from the freshly loaded module by any sequence of
TIMER.NEW, TIMER.KILL, TIMER.INFO, TIMER.LIST and alarm expiries: no address is
released more than once; a released address is no live record and no entry of
the dictionary points to it; every address that was allocated is either still
stored in the dictionary or has been released exactly once.  Moreover no
command and no expiry of an armed alarm meets a pointer to a released record:
they all return. -/
theorem release_exactly_once (steps : List (Host × Step)) (s : State)
    (hrun : run State.init steps = some s) :
    (∀ p, s.log.count (Event.free p) ≤ 1) ∧
    (∀ p, Event.free p ∈ s.log →
      alGet s.heap p = none ∧ ∀ k, DictGetC s.timers k ≠ some p) ∧
    (∀ p, Event.alloc p ∈ s.log →
      (∃ k, DictGetC s.timers k = some p) ∨ s.log.count (Event.free p) = 1) ∧
    (∀ (h : Host) (argv : List Bytes),
      (∃ s1 rep, TimerKillCommand h s argv = some (s1, rep)) ∧
      (∃ rep, TimerInfoCommand h s argv = some (s, rep)) ∧
      (∃ rep, TimerListCommand h s argv = some (s, rep))) ∧
    (∀ (h : Host) (tid : RedisModuleTimerID) (x : Nat × Ptr),
      alGet s.armed tid = some x → ∃ s1, fireTimer h s tid = some s1) := by
  have hwf : WellFormed s := WellFormed_run steps State.init s WellFormed_init hrun
  refine ⟨?_, ?_, ?_, ?_, ?_⟩
  · intro p
    by_cases hin : Event.free p ∈ s.log
    · obtain ⟨hnone, hlt⟩ := hwf.freed_dead p hin
      exact le_of_eq (hwf.released_once p hlt hnone)
    · rw [List.count_eq_zero_of_not_mem hin]
      exact Nat.zero_le _
  · intro p hin
    obtain ⟨hnone, -⟩ := hwf.freed_dead p hin
    refine ⟨hnone, ?_⟩
    intro k hk
    obtain ⟨td, hlive, -⟩ := hwf.stored_live k p (alGet_mem _ _ _ hk)
    rw [hnone] at hlive
    exact Option.noConfusion hlive
  · intro p hin
    have hlt := hwf.alloc_below p hin
    cases hget : alGet s.heap p with
    | none => exact Or.inr (hwf.released_once p hlt hget)
    | some td => exact Or.inl ⟨td.id, (hwf.live_stored p td hget).2⟩
  · intro h argv
    exact ⟨TimerKillCommand_total h s argv hwf, TimerInfoCommand_total h s argv hwf,
      TimerListCommand_total h s argv hwf⟩
  · intro h tid x harmed
    exact fireTimer_total h s tid x hwf harmed

/-- Instance of C13: `TIMER.NEW 100 abcd LOOP`, then TIMER.KILL of that timer. -/
theorem release_exactly_once_witness :
    run State.init [(hostOk [7], Step.new [cmdNew, arg100, shaA, LOOP]),
                    (hostOk [], Step.kill [cmdKill, id7])] = some stateKilled ∧
    ((∀ p, stateKilled.log.count (Event.free p) ≤ 1) ∧
    (∀ p, Event.free p ∈ stateKilled.log →
      alGet stateKilled.heap p = none ∧ ∀ k, DictGetC stateKilled.timers k ≠ some p) ∧
    (∀ p, Event.alloc p ∈ stateKilled.log →
      (∃ k, DictGetC stateKilled.timers k = some p) ∨
        stateKilled.log.count (Event.free p) = 1) ∧
    (∀ (h : Host) (argv : List Bytes),
      (∃ s1 rep, TimerKillCommand h stateKilled argv = some (s1, rep)) ∧
      (∃ rep, TimerInfoCommand h stateKilled argv = some (stateKilled, rep)) ∧
      (∃ rep, TimerListCommand h stateKilled argv = some (stateKilled, rep))) ∧
    (∀ (h : Host) (tid : RedisModuleTimerID) (x : Nat × Ptr),
      alGet stateKilled.armed tid = some x → ∃ s1, fireTimer h stateKilled tid = some s1)) :=
  ⟨rfl, release_exactly_once
    [(hostOk [7], Step.new [cmdNew, arg100, shaA, LOOP]),
     (hostOk [], Step.kill [cmdKill, id7])] stateKilled rfl⟩

/-! ## C14: TIMER.LIST is consistent with the dictionary -/

/-- C14. In a state whose dictionary has no key twice and whose entries point to
live records carrying their key, TIMER.LIST returns the state it was given and
replies an array whose announced length is the number of dictionary entries; up
to order, the tuples replied are the tuples `ReplyWithTimerData` builds from the
records of the dictionary entries, one per entry, and the identifiers replied
are the keys of the dictionary, each once.  After any run of successful
TIMER.NEW calls on the freshly loaded module, TIMER.LIST replies as many entries
as there were calls, and, up to order, their identifier, script and interval
are those of the created timers. -/
theorem TimerListCommand_consistent (h : Host) (s : State) (cmd : Bytes)
    (hnodup : (s.timers.map Prod.fst).Nodup)
    (hstored : ∀ k p, (k, p) ∈ s.timers → ∃ td, alGet s.heap p = some td ∧ td.id = k) :
    (∃ items, TimerListCommand h s [cmd] = some (s, Reply.array s.timers.length items) ∧
      items.length = s.timers.length ∧
      List.Perm (items.map some) (s.timers.map (entryInfo s)) ∧
      List.Perm (items.map (fun i => i.id)) (s.timers.map Prod.fst) ∧
      (items.map (fun i => i.id)).Nodup) ∧
    (∀ (calls : List (Host × List Bytes)) (t : State) (infos : List (Bytes × Bytes × Int)),
      runCreates State.init calls = some (t, infos) →
      ∃ items, TimerListCommand h t [cmd] = some (t, Reply.array calls.length items) ∧
        items.length = calls.length ∧ List.Perm (items.map infoFields) infos) := by
  constructor
  · obtain ⟨items, hrun, hlen, hperm, hids⟩ := TimerListCommand_listing h s cmd hstored
    exact ⟨items, hrun, hlen, hperm, hids, (List.Perm.nodup_iff hids).mpr hnodup⟩
  · intro calls t infos hrun
    have hwf : WellFormed t :=
      WellFormed_runCreates calls State.init t infos WellFormed_init hrun
    obtain ⟨-, ents, htimers, hlen, hrel⟩ :=
      runCreates_spec calls State.init t infos WellFormed_init hrun
    have htimers1 : t.timers = ents := by
      rw [htimers]; simp [State.init]
    obtain ⟨items, hlist, hlen1, hperm, -⟩ :=
      TimerListCommand_listing h t cmd hwf.stored_live
    have hcount : t.timers.length = calls.length := by rw [htimers1, hlen]
    refine ⟨items, by rw [← hcount]; exact hlist, by rw [hlen1, hcount], ?_⟩
    have h1 := hperm.map (Option.map infoFields)
    have e1 : (items.map some).map (Option.map infoFields) =
        (items.map infoFields).map some := by
      simp [List.map_map, Function.comp_def]
    rw [htimers1, entryInfo_fields t ents infos hrel, e1] at h1
    have h2 := h1.filterMap id
    rw [List.filterMap_map, List.filterMap_map] at h2
    simpa [List.filterMap_some] using h2

/-- Instance of C14 on `stateTwo`, whose dictionary has two entries. -/
theorem TimerListCommand_consistent_witness :
    (stateTwo.timers.map Prod.fst).Nodup ∧
    (∀ k p, (k, p) ∈ stateTwo.timers → ∃ td, alGet stateTwo.heap p = some td ∧ td.id = k) ∧
    ((∃ items, TimerListCommand (hostOk []) stateTwo [cmdList] =
        some (stateTwo, Reply.array stateTwo.timers.length items) ∧
      items.length = stateTwo.timers.length ∧
      List.Perm (items.map some) (stateTwo.timers.map (entryInfo stateTwo)) ∧
      List.Perm (items.map (fun i => i.id)) (stateTwo.timers.map Prod.fst) ∧
      (items.map (fun i => i.id)).Nodup) ∧
    (∀ (calls : List (Host × List Bytes)) (t : State) (infos : List (Bytes × Bytes × Int)),
      runCreates State.init calls = some (t, infos) →
      ∃ items, TimerListCommand (hostOk []) t [cmdList] =
          some (t, Reply.array calls.length items) ∧
        items.length = calls.length ∧ List.Perm (items.map infoFields) infos)) :=
  have hnodup : (stateTwo.timers.map Prod.fst).Nodup := by decide
  have hstored : ∀ k p, (k, p) ∈ stateTwo.timers →
      ∃ td, alGet stateTwo.heap p = some td ∧ td.id = k := by
    intro k p hmem
    simp only [stateTwo, List.mem_cons, Prod.mk.injEq, List.mem_singleton,
      List.not_mem_nil, or_false] at hmem
    rcases hmem with ⟨hk, hp⟩ | ⟨hk, hp⟩
    · subst hk hp
      exact ⟨_, rfl, rfl⟩
    · subst hk hp
      exact ⟨_, rfl, rfl⟩
  ⟨hnodup, hstored, TimerListCommand_consistent (hostOk []) stateTwo cmdList hnodup hstored⟩

theorem runCreates_example :
    runCreates State.init [(hostOk [7], [cmdNew, arg100, shaA, LOOP]),
                           (hostOk [8], [cmdNew, arg100, shaA])] =
      some (stateTwo, [(id8, shaA, 0), (id7, shaA, 100)]) := by
  rfl

/-- The reply of TIMER.LIST on `stateTwo`: the timer "7000000000", created first,
comes before "8000000000", as in the key order of the dictionary iterator. -/
theorem TimerListCommand_key_order :
    TimerListCommand (hostOk []) stateTwo [cmdList] =
      some (stateTwo, Reply.array 2
        [{ id := id7, sha1 := shaA, rem := 100, interval := 100 },
         { id := id8, sha1 := shaA, rem := 100, interval := 0 }]) := by
  rfl

/-! ## C15: TIMER.INFO and the length of its argument -/

/-- What TIMER.INFO does on an identifier of `TimerIDLen` bytes whose entry, if
there is one, points to a live record: it returns the state it was given,
replies "ERR invalid id" exactly when the dictionary has no entry under the
identifier, and otherwise replies the fields of the stored record with the
remaining time of `RedisModule_GetTimerInfo` cast to `long long`. -/
theorem TimerInfoCommand_fixed_width (h : Host) (s : State) (cmd id : Bytes)
    (hlen : id.length = TimerIDLen)
    (hwf : ∀ p, DictGetC s.timers id = some p → ∃ td, alGet s.heap p = some td) :
    ∃ rep, TimerInfoCommand h s [cmd, id] = some (s, rep) ∧
      (rep = Reply.error ErrMsg.invalidId ↔ DictGetC s.timers id = none) ∧
      ∀ p td, DictGetC s.timers id = some p → alGet s.heap p = some td →
        rep = Reply.timerData
          { id := td.id, sha1 := td.sha1,
            rem := castLongLong ((GetTimerInfo s td.tid).getD 0),
            interval := td.interval } := by
  cases hget : DictGetC s.timers id with
  | none =>
    refine ⟨_, TimerInfoCommand_absent h s cmd id hlen hget, by simp, ?_⟩
    intro p td hp
    exact Option.noConfusion hp
  | some p =>
    obtain ⟨td, hlive⟩ := hwf p hget
    have hrun : TimerInfoCommand h s [cmd, id] =
        some (s, Reply.timerData (ReplyWithTimerData s td)) := by
      simp [TimerInfoCommand, readId_of_length h id hlen, hget, hlive]
    refine ⟨_, hrun, by simp, ?_⟩
    intro p1 td1 hp1 hlive1
    injection hp1 with hp1
    subst hp1
    rw [hlive] at hlive1
    injection hlive1 with hlive1
    subst hlive1
    rfl

theorem castLongLong_wraps : castLongLong (2 ^ 63) = -(2 ^ 63) := by
  decide

/-- C15 fails on the code: in `stateOne` the only live identifier is "7000000000".
TIMER.INFO with the 12-byte argument "7000000000ab", which is the identifier of
no live timer, reads the first `TimerIDLen` bytes of the argument only: it finds
the record of "7000000000" and replies its four fields instead of
"ERR invalid id". -/
theorem TimerInfoCommand_longer_argument :
    id7ab.length = 12 ∧
    stateOne.timers = [(id7, 0)] ∧
    id7ab ≠ id7 ∧
    DictGetC stateOne.timers id7ab = none ∧
    readId (hostOk []) id7ab = id7 ∧
    TimerInfoCommand (hostOk []) stateOne [cmdInfo, id7ab] =
      some (stateOne, Reply.timerData
        { id := id7, sha1 := shaA, rem := 100, interval := 100 }) ∧
    TimerInfoCommand (hostOk []) stateOne [cmdInfo, id7ab] ≠
      some (stateOne, Reply.error ErrMsg.invalidId) := by
  refine ⟨rfl, rfl, by decide, rfl, rfl, rfl, by decide⟩

/-! ## C16: the existence check fails closed -/

/-- C16. `ScriptExists` is true exactly when the host replied to SCRIPT EXISTS,
the reply is no error, it has a first element, that element is no error, and
the integer `RedisModule_CallReplyInteger` reads from that element is not 0.  So
a missing reply, an error reply, a reply without first element and an error
first element all give false. -/
theorem ScriptExists_fails_closed (h : Host) (sha1 : Bytes) :
    (ScriptExists h sha1 = true ↔
      ∃ rep, h.scriptExists sha1 = some rep ∧ CallReplyIsError rep = false ∧
        ∃ irep, CallReplyArrayElement0 rep = some irep ∧ CallReplyIsError irep = false ∧
          CallReplyInteger irep ≠ 0) ∧
    (h.scriptExists sha1 = none → ScriptExists h sha1 = false) ∧
    (∀ rep, h.scriptExists sha1 = some rep → CallReplyIsError rep = true →
      ScriptExists h sha1 = false) ∧
    (∀ rep, h.scriptExists sha1 = some rep → CallReplyArrayElement0 rep = none →
      ScriptExists h sha1 = false) ∧
    (∀ rep irep, h.scriptExists sha1 = some rep → CallReplyArrayElement0 rep = some irep →
      CallReplyIsError irep = true → ScriptExists h sha1 = false) := by
  unfold ScriptExists
  cases hrep : h.scriptExists sha1 with
  | none => simp
  | some rep =>
    cases herr : CallReplyIsError rep with
    | true => simp [herr]
    | false =>
      cases helem : CallReplyArrayElement0 rep with
      | none => simp [herr, helem]
      | some irep =>
        cases hierr : CallReplyIsError irep with
        | true => simp [herr, helem, hierr]
        | false =>
          simp only [herr, helem, hierr]
          refine ⟨?_, by simp, ?_, ?_, ?_⟩
          · simp [herr, helem, hierr]
          · intro rep1 h1 h2
            injection h1 with h1
            subst h1
            rw [herr] at h2
            exact Bool.noConfusion h2
          · intro rep1 h1 h2
            injection h1 with h1
            subst h1
            rw [helem] at h2
            exact Option.noConfusion h2
          · intro rep1 irep1 h1 h2 h3
            injection h1 with h1
            subst h1
            rw [helem] at h2
            injection h2 with h2
            subst h2
            rw [hierr] at h3
            exact Bool.noConfusion h3

/-! ## C17: the re-arm does not look at the result of the script -/

/-- C18 fails as stated: `TIMER.NEW -5 abcd LOOP` succeeds and stores the interval
-5, which is neither 0 nor positive, and `TimerCallback` re-arms that record
(new `RedisModule_CreateTimer`, record stored again) although its interval is
not positive.  Conversely the record of `stateOne` has the positive interval 100
and is not re-armed when its script is gone. -/
theorem negative_interval_stored_and_rearmed :
    TimerNewCommand (hostOk [7]) State.init [cmdNew, argMinus5, shaA, LOOP] =
      some (stateNegLoop, Reply.stringBuffer id7) ∧
    alGet stateNegLoop.heap 0 =
      some { id := id7, tid := 0, sha1 := shaA, interval := -5 } ∧
    ¬ ((-5 : Int) = 0 ∨ 0 < (-5 : Int)) ∧
    TimerCallback (hostOk []) stateNegLoop 0 = some stateNegRearmed ∧
    DictGetC stateNegRearmed.timers id7 = some 0 ∧
    Event.createTimer (-5) 0 1 ∈ stateNegRearmed.log ∧
    alGet stateOne.heap 0 = some { id := id7, tid := 0, sha1 := shaA, interval := 100 } ∧
    TimerCallback hostNoScript stateOne 0 = some stateReaped ∧
    DictGetC stateReaped.timers id7 = none ∧
    stateReaped.nextTid = stateOne.nextTid :=
  ⟨rfl, rfl, by decide, rfl, rfl, by decide, rfl, rfl, rfl, rfl⟩

theorem step_interval_nonneg (h : Host) (s s1 : State) (st : Step)
    (hstep : step h s st = some s1)
    (hnn : ∀ argv v, st = Step.new argv →
      h.StringToLongLong (argv.getD 1 []) = some v → 0 ≤ v)
    (hinv : ∀ p td, alGet s.heap p = some td → 0 ≤ td.interval) :
    ∀ p td, alGet s1.heap p = some td → 0 ≤ td.interval := by
  cases st with
  | new argv =>
    simp only [step, Option.map_eq_some', Prod.exists, exists_and_right, exists_eq_right] at hstep
    obtain ⟨rep, hres⟩ := hstep
    rcases TimerNewCommand_cases h s s1 argv rep hres with
      hs | ⟨id, interval, -, -, -, hs⟩ | ⟨id, interval, -, hparse, -, hs⟩
    · rw [hs]; exact hinv
    · subst hs
      intro q td hget
      obtain ⟨hq, hget1⟩ := alGet_alDel_some _ _ _ _ hget
      simp only [armedState] at hget1
      rw [alGet_alSet_ne _ _ _ _ hq, alGet_alSet_ne _ _ _ _ hq] at hget1
      exact hinv q td hget1
    · subst hs
      intro q td hget
      have hget1 : alGet (armedState h s argv id interval).heap q = some td := hget
      simp only [armedState] at hget1
      by_cases hq : q = s.nextPtr
      · subst hq
        rw [alGet_alSet_self] at hget1
        injection hget1 with hget1
        subst hget1
        have hv := hnn argv interval rfl hparse
        simp only [newRecord]
        split
        · exact hv
        · exact le_refl _
      · rw [alGet_alSet_ne _ _ _ _ hq, alGet_alSet_ne _ _ _ _ hq] at hget1
        exact hinv q td hget1
  | kill argv =>
    simp only [step, Option.map_eq_some', Prod.exists, exists_and_right, exists_eq_right] at hstep
    obtain ⟨rep, hres⟩ := hstep
    rcases TimerKillCommand_cases h s s1 argv rep hres with
      hs | ⟨tid, hs⟩ | ⟨id, p, td, x, -, -, -, hs⟩
    · rw [hs]; exact hinv
    · rw [hs]; exact hinv
    · subst hs
      intro q tdq hget
      exact hinv q tdq (alGet_alDel_some _ _ _ _ hget).2
  | info argv =>
    simp only [step, Option.map_eq_some', Prod.exists, exists_and_right, exists_eq_right] at hstep
    obtain ⟨rep, hres⟩ := hstep
    rw [TimerInfoCommand_state h s s1 argv rep hres]
    exact hinv
  | list argv =>
    simp only [step, Option.map_eq_some', Prod.exists, exists_and_right, exists_eq_right] at hstep
    obtain ⟨rep, hres⟩ := hstep
    rw [TimerListCommand_state h s s1 argv rep hres]
    exact hinv
  | fire tid =>
    simp only [step, fireTimer] at hstep
    split at hstep
    · exact Option.noConfusion hstep
    · rename_i rem data harmed
      obtain ⟨td, hlive, hcases⟩ := TimerCallback_cases h _ s1 data hstep
      have hlive1 : alGet s.heap data = some td := hlive
      rcases hcases with ⟨-, hs⟩ | ⟨-, -, hs⟩ | ⟨-, -, hs⟩
      · subst hs
        intro q tdq hget
        exact hinv q tdq (alGet_alDel_some _ _ _ _ hget).2
      · subst hs
        intro q tdq hget
        exact hinv q tdq (alGet_alDel_some _ _ _ _ hget).2
      · subst hs
        intro q tdq hget
        simp only [rearmedState] at hget
        by_cases hq : q = data
        · subst hq
          rw [alGet_alSet_self] at hget
          injection hget with hget
          subst hget
          exact hinv q td hlive1
        · rw [alGet_alSet_ne _ _ _ _ hq] at hget
          exact hinv q tdq hget

theorem run_interval_nonneg (steps : List (Host × Step)) :
    ∀ (s t : State), run s steps = some t → NonNegDelays steps →
      (∀ p td, alGet s.heap p = some td → 0 ≤ td.interval) →
      ∀ p td, alGet t.heap p = some td → 0 ≤ td.interval := by
  induction steps with
  | nil =>
    intro s t hrun _ hinv
    simp only [run, Option.some.injEq] at hrun
    rw [← hrun]; exact hinv
  | cons x rest ih =>
    intro s t hrun hnn hinv
    obtain ⟨h, st⟩ := x
    simp only [run] at hrun
    split at hrun
    · exact Option.noConfusion hrun
    · rename_i s1 hstep
      refine ih s1 t hrun ?_ ?_
      · intro h1 argv v hmem hparse
        exact hnn h1 argv v (List.mem_cons_of_mem _ hmem) hparse
      · refine step_interval_nonneg h s s1 st hstep ?_ hinv
        intro argv v hst hparse
        subst hst
        exact hnn h argv v (List.mem_cons_self _ _) hparse

/-- C18, amended. A successful TIMER.NEW whose delay is not negative stores as
interval the delay under LOOP and 0 otherwise, so 0 or a positive value.  In
every state reached from the freshly loaded module by steps whose TIMER.NEW
delays are not negative, every live record has an interval that is not
negative, and `TimerCallback` on such a record re-arms it (asks for a new alarm
and stores the record under its identifier again) exactly when its script still
exists and its interval is positive. -/
theorem interval_domain (steps : List (Host × Step)) (s : State)
    (hrun : run State.init steps = some s) (hnn : NonNegDelays steps) :
    (∀ (h : Host) (s0 s1 : State) (argv : List Bytes) (id : Bytes) (v : Int),
      TimerNewCommand h s0 argv = some (s1, Reply.stringBuffer id) →
      h.StringToLongLong (argv.getD 1 []) = some v → 0 ≤ v →
      ∃ td, alGet s1.heap s0.nextPtr = some td ∧
        DictGetC s1.timers id = some s0.nextPtr ∧
        td.interval = (if argv.length = 4 then v else 0) ∧
        (td.interval = 0 ∨ 0 < td.interval)) ∧
    (∀ p td, alGet s.heap p = some td → 0 ≤ td.interval) ∧
    (∀ (h : Host) (p : Ptr) (td : TimerData), alGet s.heap p = some td →
      ∃ s1, TimerCallback h s p = some s1 ∧
        (DictGetC s1.timers td.id = some p ↔
          ScriptExists h td.sha1 = true ∧ 0 < td.interval) ∧
        (s1.nextTid = s.nextTid + 1 ↔
          ScriptExists h td.sha1 = true ∧ 0 < td.interval)) := by
  have hinv : ∀ p td, alGet s.heap p = some td → 0 ≤ td.interval :=
    run_interval_nonneg steps State.init s hrun hnn
      (by intro p td hget; simp [State.init, alGet] at hget)
  refine ⟨?_, hinv, ?_⟩
  · intro h s0 s1 argv id v hres hparse hv
    obtain ⟨-, -, -, interval, hparse1, -, hs1⟩ := TimerNewCommand_success h s0 s1 argv id hres
    rw [hparse] at hparse1
    injection hparse1 with hparse1
    subst hparse1
    refine ⟨newRecord s0 argv id v, ?_, ?_, rfl, ?_⟩
    · rw [hs1]; simp [armedState, alGet_alSet_self]
    · rw [hs1]; simp [DictGetC, DictSetC, alGet_alSet_self]
    · simp only [newRecord]
      split
      · rcases lt_or_eq_of_le hv with hlt | heq
        · exact Or.inr hlt
        · exact Or.inl heq.symm
      · exact Or.inl rfl
  · intro h p td hlive
    have hnonneg := hinv p td hlive
    cases hscript : ScriptExists h td.sha1 with
    | false =>
      refine ⟨_, TimerCallback_stale_eq h s p td hlive hscript, ?_, ?_⟩
      · simp [DeleteTimerData, TimerCallback_remove, DictGetC, DictDelC, alGet_alDel_self]
      · simp [DeleteTimerData, TimerCallback_remove]
    | true =>
      by_cases hzero : td.interval = 0
      · refine ⟨_, TimerCallback_once_eq h s p td hlive hscript hzero, ?_, ?_⟩
        · simp [DeleteTimerData, TimerCallback_remove, DictGetC, DictDelC, alGet_alDel_self,
            hzero]
        · simp [DeleteTimerData, TimerCallback_remove, hzero]
      · have hpos : 0 < td.interval := lt_of_le_of_ne hnonneg (fun h0 => hzero h0.symm)
        refine ⟨_, TimerCallback_rearm_eq h s p td hlive hscript hzero, ?_, ?_⟩
        · simp [rearmedState, DictGetC, DictSetC, alGet_alSet_self, hpos]
        · simp [rearmedState, hpos]

/-- Instance of C18, amended: the state after `TIMER.NEW 100 abcd LOOP`. -/
theorem interval_domain_witness :
    run State.init [(hostOk [7], Step.new [cmdNew, arg100, shaA, LOOP])] = some stateOne ∧
    NonNegDelays [(hostOk [7], Step.new [cmdNew, arg100, shaA, LOOP])] ∧
    ((∀ (h : Host) (s0 s1 : State) (argv : List Bytes) (id : Bytes) (v : Int),
      TimerNewCommand h s0 argv = some (s1, Reply.stringBuffer id) →
      h.StringToLongLong (argv.getD 1 []) = some v → 0 ≤ v →
      ∃ td, alGet s1.heap s0.nextPtr = some td ∧
        DictGetC s1.timers id = some s0.nextPtr ∧
        td.interval = (if argv.length = 4 then v else 0) ∧
        (td.interval = 0 ∨ 0 < td.interval)) ∧
    (∀ p td, alGet stateOne.heap p = some td → 0 ≤ td.interval) ∧
    (∀ (h : Host) (p : Ptr) (td : TimerData), alGet stateOne.heap p = some td →
      ∃ s1, TimerCallback h stateOne p = some s1 ∧
        (DictGetC s1.timers td.id = some p ↔
          ScriptExists h td.sha1 = true ∧ 0 < td.interval) ∧
        (s1.nextTid = stateOne.nextTid + 1 ↔
          ScriptExists h td.sha1 = true ∧ 0 < td.interval))) :=
  have hnn : NonNegDelays [(hostOk [7], Step.new [cmdNew, arg100, shaA, LOOP])] := by
    intro h argv v hmem hparse
    simp only [List.mem_singleton, Prod.mk.injEq, Step.new.injEq] at hmem
    obtain ⟨hh, hargv⟩ := hmem
    subst hh hargv
    have h100 : (hostOk [7]).StringToLongLong ([cmdNew, arg100, shaA, LOOP].getD 1 []) =
        some 100 := rfl
    rw [h100] at hparse
    injection hparse with hparse
    rw [← hparse]
    decide
  ⟨rfl, hnn,
   interval_domain [(hostOk [7], Step.new [cmdNew, arg100, shaA, LOOP])] stateOne rfl hnn⟩

/-! ## C19: TIMER.KILL when the alarm cannot be stopped -/

/-- C19. Take a record stored under `id` whose handle the host cannot stop (it is
not armed).  TIMER.KILL with `id` replies "ERR cannot stop timer"; the dictionary,
the live records and the alarm table are exactly as before, the record is still
stored under `id`, and the only host call logged is the failed
`RedisModule_StopTimer`: no release. -/
theorem TimerKillCommand_engine_failure (h : Host) (s : State) (cmd id : Bytes) (p : Ptr)
    (td : TimerData) (hlen : id.length = TimerIDLen)
    (hstored : DictGetC s.timers id = some p) (hlive : alGet s.heap p = some td)
    (hdead : alGet s.armed td.tid = none) :
    ∃ s1, TimerKillCommand h s [cmd, id] = some (s1, Reply.error ErrMsg.cannotStopTimer) ∧
      s1.timers = s.timers ∧ s1.heap = s.heap ∧ s1.armed = s.armed ∧
      DictGetC s1.timers id = some p ∧ alGet s1.heap p = some td ∧
      s1.log = s.log ++ [Event.stopTimer td.tid false] :=
  ⟨_, TimerKillCommand_unarmed_eq h s cmd id p td hlen hstored hlive hdead, rfl, rfl, rfl,
    hstored, hlive, rfl⟩

/-- Instance of C19: the record of `stateStuck`, whose handle 1 is not armed. -/
theorem TimerKillCommand_engine_failure_witness :
    id7.length = TimerIDLen ∧
    DictGetC stateStuck.timers id7 = some 0 ∧
    alGet stateStuck.heap 0 = some { id := id7, tid := 1, sha1 := shaA, interval := 100 } ∧
    alGet stateStuck.armed 1 = none ∧
    ∃ s1, TimerKillCommand (hostOk []) stateStuck [cmdKill, id7] =
        some (s1, Reply.error ErrMsg.cannotStopTimer) ∧
      s1.timers = stateStuck.timers ∧ s1.heap = stateStuck.heap ∧
      s1.armed = stateStuck.armed ∧
      DictGetC s1.timers id7 = some 0 ∧
      alGet s1.heap 0 = some { id := id7, tid := 1, sha1 := shaA, interval := 100 } ∧
      s1.log = stateStuck.log ++ [Event.stopTimer 1 false] :=
  ⟨rfl, rfl, rfl, rfl,
   TimerKillCommand_engine_failure (hostOk []) stateStuck cmdKill id7 0
     { id := id7, tid := 1, sha1 := shaA, interval := 100 } rfl rfl rfl rfl⟩

end RedisTimer
